import Mathlib

/-!
Verification of the RINEX-Parser repository (`rinex_parser.py` and
`src/rinex_header.py`) against its natural-language specification.

The Python code is shallowly embedded: strings are `List Char`, Python
exceptions are the constructors of `PyError`, the `parsec` combinators used by
the source are modelled as functions `List Char → Except FieldErr (α × List Char)`,
and `datetime.strptime` is modelled by arithmetic on the digit fields following
CPython's `_strptime` component regexes.
-/

/-- The Python exceptions that can escape the decoding engine.  `invalidFilename`,
`invalidHeader` and `rinexHeaderFieldError` are the classes declared at the bottom
of `rinex_parser.py`; `valueError`, `keyError`, `nameError` and `indexError` are the
Python builtins.  (`RINEXHeaderFieldError` subclasses `ValueError` in the source, but
an instance of the builtin `ValueError` — e.g. one raised by `float()` — is *not* an
instance of the subclass, so the two are distinct constructors here.) -/
inductive PyError where
  | invalidFilename (msg : String)
  | invalidHeader (msg : String)
  | rinexHeaderFieldError (msg : String)
  | valueError (msg : String)
  | keyError (key : String)
  | nameError (missing : String)
  | indexError
  | parseError (msg : String)
deriving DecidableEq, Repr

/-- The failures a `parsec` parser run can produce: a `ParseError` from a
combinator mismatch, or a `ValueError` escaping from a `parsecmap`ped function
such as `float`. -/
inductive FieldErr where
  | parseErr (msg : String)
  | valueErr (msg : String)
deriving DecidableEq, Repr

/-- Injection of a parser-run failure into the Python exception model. -/
def FieldErr.toPy : FieldErr → PyError
  | .parseErr m => .parseError m
  | .valueErr m => .valueError m

/-- ASCII decimal digit (the only digits the source regexes match). -/
def isUDigit (c : Char) : Bool := 48 ≤ c.toNat && c.toNat ≤ 57

/-- ASCII upper-case letter.  The source upper-cases its input before matching,
so `[a-z]` with `re.IGNORECASE` accepts exactly these on the normalised text. -/
def isUAlpha (c : Char) : Bool := 65 ≤ c.toNat && c.toNat ≤ 90

/-- ASCII upper-case letter or digit: `[a-z\d]` with `re.IGNORECASE` on
upper-cased text. -/
def isUAlnum (c : Char) : Bool := isUDigit c || isUAlpha c

/-- ASCII letter or digit of either case, for the `n_A` parser's `[A-Za-z0-9]`. -/
def isAlnumAscii (c : Char) : Bool :=
  isUDigit c || isUAlpha c || (97 ≤ c.toNat && c.toNat ≤ 122)

/-- The whitespace class recognised by Python's `str.split()` and the `\s` of
`parsec.spaces()`, restricted to ASCII. -/
def isPySpace (c : Char) : Bool :=
  c.toNat = 32 || c.toNat = 9 || c.toNat = 10 || c.toNat = 13 || c.toNat = 11 || c.toNat = 12

/-- Numeric value of a digit string (most significant first). -/
def digitsVal (l : List Char) : Nat :=
  l.foldl (fun a c => a * 10 + (c.toNat - 48)) 0

/-- Python's `str.split(sep)` for a one-character separator: splits on every
occurrence and keeps empty pieces, so the result is never empty. -/
def splitOnChar (sep : Char) : List Char → List (List Char)
  | [] => [[]]
  | c :: cs =>
    match splitOnChar sep cs with
    | [] => [[]]
    | g :: gs => if c = sep then [] :: g :: gs else (c :: g) :: gs

/-- Python's `str.splitlines()` restricted to `'\n'` line boundaries (the only
boundary character occurring in RINEX header text): split on `'\n'` and drop
the trailing empty piece produced by a final newline. -/
def splitlinesPy (l : List Char) : List (List Char) :=
  match l with
  | [] => []
  | _ =>
    let parts := splitOnChar '\n' l
    if l.getLast? = some '\n' then parts.dropLast else parts

/-- The base-name part of Python's `os.path.splitext`: everything before the
last dot.  (The source only applies it to names that start with an
alphanumeric character, so the leading-dot special case never fires.) -/
def splitextBase : List Char → List Char
  | [] => []
  | c :: cs =>
    if '.' ∈ cs then c :: splitextBase cs
    else if c = '.' then [] else c :: splitextBase cs

/-- Worker for `pySplitWs`: accumulates the current word (reversed) and the
finished words (reversed). -/
def splitWsAux (cur : List Char) (acc : List (List Char)) : List Char → List (List Char)
  | [] => if cur = [] then acc.reverse else (cur.reverse :: acc).reverse
  | c :: cs =>
    if isPySpace c then
      if cur = [] then splitWsAux [] acc cs else splitWsAux [] (cur.reverse :: acc) cs
    else splitWsAux (c :: cur) acc cs

/-- Python's no-argument `str.split()`: maximal runs of non-whitespace. -/
def pySplitWs (l : List Char) : List (List Char) := splitWsAux [] [] l

/-- Join words with single spaces, as `' '.join(...)` does. -/
def joinSp : List (List Char) → List Char
  | [] => []
  | [w] => w
  | w :: ws => w ++ ' ' :: joinSp ws

/-- The source's `trim_whitespace = lambda a: ' '.join(a.split())`: collapse
internal whitespace runs to single spaces and strip the ends. -/
def trim_whitespace (l : List Char) : List Char := joinSp (pySplitWs l)

/-- Python's `str.upper()` on ASCII text, applied character-wise. -/
def pyUpper (l : List Char) : List Char := l.map Char.toUpper

/-- Upper-cased character list of a filename string, as the source's
`filename = filename.upper()`. -/
def upperList (s : String) : List Char := pyUpper s.data

/-- Python's `float()` on the decimal literals occurring in RINEX headers:
optional surrounding whitespace, optional sign, decimal digits with an optional
point and an optional exponent.  (The `inf`/`nan` spellings and underscore
separators accepted by CPython never occur in fixed-column RINEX fields and are
not modelled.)  Returns the exact rational value. -/
def pyFloatCore : List Char → Option ℚ
  | l =>
    let ip := l.takeWhile isUDigit
    let rest := l.drop ip.length
    match rest with
    | '.' :: r2 =>
      let fp := r2.takeWhile isUDigit
      let rest2 := r2.drop fp.length
      if ip.isEmpty && fp.isEmpty then none
      else
        (pyFloatExp rest2).map (fun e =>
          ((digitsVal ip : ℚ) + (digitsVal fp : ℚ) / ((10 : ℚ) ^ fp.length)) * e)
    | r2 =>
      if ip.isEmpty then none
      else (pyFloatExp r2).map (fun e => (digitsVal ip : ℚ) * e)
where
  /-- Optional exponent suffix; yields the scale factor. -/
  pyFloatExp : List Char → Option ℚ
    | [] => some 1
    | 'e' :: r => pyFloatExpSigned r
    | 'E' :: r => pyFloatExpSigned r
    | _ => none
  pyFloatExpSigned : List Char → Option ℚ
    | '+' :: r => pyFloatExpDigits r
    | '-' :: r => (pyFloatExpDigits r).map (fun q => 1 / q)
    | r => pyFloatExpDigits r
  pyFloatExpDigits (r : List Char) : Option ℚ :=
    if r ≠ [] ∧ r.all isUDigit then some ((10 : ℚ) ^ digitsVal r) else none

/-- Python's `float()` including sign and whitespace stripping. -/
def pyFloat (l : List Char) : Option ℚ :=
  let t := ((l.dropWhile isPySpace).reverse.dropWhile isPySpace).reverse
  match t with
  | '+' :: r => pyFloatCore r
  | '-' :: r => (pyFloatCore r).map (fun q => -q)
  | r => pyFloatCore r

/-- Python's `int()` on the all-digit slices taken by the filename parser. -/
def pyInt (l : List Char) : Except PyError Nat :=
  if l ≠ [] ∧ l.all isUDigit then .ok (digitsVal l)
  else .error (.valueError ("invalid literal for int: " ++ String.mk l))

/-- A `parsec` parser as run by `.parse`: consumes a prefix of the remaining
character list and returns a value, or fails. -/
def PP (α : Type) : Type := List Char → Except FieldErr (α × List Char)

/-- The source's `n_ANY(n)`: `regex('(.){n}')` — exactly `n` characters, none
of them a newline (`.` does not match `'\n'`). -/
def n_ANY (n : Nat) : PP (List Char) := fun l =>
  if (l.take n).length = n ∧ (l.take n).all (fun c => c != '\n') = true then
    .ok (l.take n, l.drop n)
  else .error (.parseErr "n_ANY")

/-- The source's `n_A(n)`: `regex('([A-Za-z0-9]){n}')`. -/
def n_A (n : Nat) : PP (List Char) := fun l =>
  if (l.take n).length = n ∧ (l.take n).all isAlnumAscii = true then
    .ok (l.take n, l.drop n)
  else .error (.parseErr "n_A")

/-- The source's `n_I(n)`: `regex('([0-9]){1,n}')` mapped through `int` — a
greedy run of one to `n` digits. -/
def n_I (n : Nat) : PP Nat := fun l =>
  let ds := (l.take n).takeWhile isUDigit
  if ds = [] then .error (.parseErr "n_I")
  else .ok (digitsVal ds, l.drop ds.length)

/-- `parsec.one_of(cs)`: a single character drawn from `cs`. -/
def one_of (cs : String) : PP Char := fun l =>
  match l with
  | c :: r => if c ∈ cs.data then .ok (c, r) else .error (.parseErr "one_of")
  | [] => .error (.parseErr "one_of")

/-- `parsec.spaces()`: `regex(r'\s*')` — zero or more whitespace characters. -/
def spacesP : PP Unit := fun l => .ok ((), l.dropWhile isPySpace)

/-- `.parsecmap(f)` for a pure `f`. -/
def pmap {α β : Type} (f : α → β) (p : PP α) : PP β := fun l =>
  match p l with
  | .ok (a, r) => .ok (f a, r)
  | .error e => .error e

/-- `.parsecmap(float)`: a `float()` call inside the parser; a malformed number
escapes as a `ValueError`, exactly as in Python, not as a `ParseError`. -/
def pmapFloat (p : PP (List Char)) : PP ℚ := fun l =>
  match p l with
  | .ok (s, r) =>
    match pyFloat s with
    | some q => .ok (q, r)
    | none => .error (.valueErr ("could not convert string to float: " ++ String.mk s))
  | .error e => .error e

/-- `parsec.compose(p, q)` (`p >> q`): run both, keep `q`'s value. -/
def compose {α β : Type} (p : PP α) (q : PP β) : PP β := fun l =>
  match p l with
  | .ok (_, r) => q r
  | .error e => .error e

/-- `parsec.skip(p, q)` (`p << q`): run both, keep `p`'s value. -/
def skipP {α β : Type} (p : PP α) (q : PP β) : PP α := fun l =>
  match p l with
  | .ok (a, r) =>
    match q r with
    | .ok (_, r2) => .ok (a, r2)
    | .error e => .error e
  | .error e => .error e

/-- `parsec.bind(p, f)`. -/
def bindP {α β : Type} (p : PP α) (f : α → PP β) : PP β := fun l =>
  match p l with
  | .ok (a, r) => f a r
  | .error e => .error e

/-- `parsec.joint(p, q)` returning the pair. -/
def joint2 {α β : Type} (p : PP α) (q : PP β) : PP (α × β) := fun l =>
  match p l with
  | .ok (a, r) =>
    match q r with
    | .ok (b, r2) => .ok ((a, b), r2)
    | .error e => .error e
  | .error e => .error e

/-- `parsec.joint(p, q, r)` returning the triple. -/
def joint3 {α β γ : Type} (p : PP α) (q : PP β) (r : PP γ) : PP (α × β × γ) := fun l =>
  match joint2 p (joint2 q r) l with
  | .ok ((a, b, c), rest) => .ok ((a, b, c), rest)
  | .error e => .error e

/-- `parsec.count(p, n)`: exactly `n` repetitions. -/
def countP {α : Type} (p : PP α) : Nat → PP (List α)
  | 0 => fun l => .ok ([], l)
  | n + 1 => fun l =>
    match p l with
    | .ok (a, r) =>
      match countP p n r with
      | .ok (as, r2) => .ok (a :: as, r2)
      | .error e => .error e
    | .error e => .error e

/-- Fuelled worker for `many`: stops at the first `ParseError`, propagates a
`ValueError` escaping from a mapped function.  Every repetition used by the
source consumes at least one character, so input-length fuel never runs out. -/
def manyAux {α : Type} (p : PP α) : Nat → List Char → Except FieldErr (List α × List Char)
  | 0, l => .ok ([], l)
  | fuel + 1, l =>
    match p l with
    | .error (.parseErr _) => .ok ([], l)
    | .error e => .error e
    | .ok (a, r) =>
      match manyAux p fuel r with
      | .ok (as, r2) => .ok (a :: as, r2)
      | .error e => .error e

/-- `parsec.many1(p)`: one or more repetitions. -/
def many1 {α : Type} (p : PP α) : PP (List α) := fun l =>
  match p l with
  | .error e => .error e
  | .ok (a, r) =>
    match manyAux p r.length r with
    | .ok (as, r2) => .ok (a :: as, r2)
    | .error e => .error e

/-- `Parser(...).parse(text)`: run from the start of the text and return the
value; leftover unconsumed text is not an error. -/
def runP {α : Type} (p : PP α) (l : List Char) : Except FieldErr α :=
  match p l with
  | .ok (a, _) => .ok a
  | .error e => .error e

/-- The capture groups of the source's long-name regex
`^[a-z\d]{9}_r_\d{11}_\d\d[dhm]_(\d\d[a-z]_)?[megjr][mon]\.[cr][rn]x$`
(matched with `re.IGNORECASE` against the upper-cased filename). -/
structure LongParts where
  nine : List Char
  d11 : List Char
  dur : List Char
  unit : Char
  opt : Option (List Char × Char)
  net : Char
  dtype : Char
  arch : Char
  ext2 : Char
deriving DecidableEq, Repr

/-- Letter class `[megjr]` (upper-cased). -/
def netOk (c : Char) : Bool := c = 'M' || c = 'E' || c = 'G' || c = 'J' || c = 'R'

/-- Letter class `[mon]` (upper-cased). -/
def typeOk (c : Char) : Bool := c = 'M' || c = 'O' || c = 'N'

/-- Letter class `[cr]` (upper-cased). -/
def archOk (c : Char) : Bool := c = 'C' || c = 'R'

/-- Letter class `[rn]` (upper-cased). -/
def extOk (c : Char) : Bool := c = 'R' || c = 'N'

/-- Letter class `[dhm]` (upper-cased). -/
def unitOk (c : Char) : Bool := c = 'D' || c = 'H' || c = 'M'

/-- Letter class `[gndmo]` (upper-cased). -/
def styleOk (c : Char) : Bool := c = 'G' || c = 'N' || c = 'D' || c = 'M' || c = 'O'

/-- Hour character class `[a-x\d]` of the short-name regex on upper-cased text. -/
def hourOk (c : Char) : Bool := isUDigit c || (65 ≤ c.toNat && c.toNat ≤ 88)

/-- Matcher for the trailing `(\d\d[a-z]_)?[megjr][mon]\.[cr][rn]x$` of the
long-name regex (on upper-cased text): the optional group plus the final six
characters.  The two admissible shapes differ by four characters, so they are
mutually exclusive, exactly as for the anchored regex. -/
def longTailDecomp (r2 : List Char) :
    Option (Option (List Char × Char) × Char × Char × Char × Char) :=
  match r2 with
  | [n, t, '.', c1, c2, 'X'] =>
    if netOk n && typeOk t && archOk c1 && extOk c2 then
      some (none, n, t, c1, c2)
    else none
  | [e1, e2, al, '_', n, t, '.', c1, c2, 'X'] =>
    if isUDigit e1 && isUDigit e2 && isUAlpha al &&
       netOk n && typeOk t && archOk c1 && extOk c2 then
      some (some ([e1, e2], al), n, t, c1, c2)
    else none
  | _ => none

/-- Matcher for the source's long-name regex, returning the capture groups. -/
def longDecomp (l : List Char) : Option LongParts :=
  if (l.take 9).length = 9 ∧ (l.take 9).all isUAlnum = true then
    match l.drop 9 with
    | '_' :: 'R' :: '_' :: r1 =>
      if (r1.take 11).length = 11 ∧ (r1.take 11).all isUDigit = true then
        match r1.drop 11 with
        | '_' :: a :: b :: u :: '_' :: r2 =>
          if isUDigit a && isUDigit b && unitOk u then
            match longTailDecomp r2 with
            | some (o, n, t, c1, c2) => some ⟨l.take 9, r1.take 11, [a, b], u, o, n, t, c1, c2⟩
            | none => none
          else none
        | _ => none
      else none
    | _ => none
  else none

/-- Reassembled text of the long-name tail: the optional sample-rate group plus
the final six characters. -/
def buildLongTail (o : Option (List Char × Char)) (n t c1 c2 : Char) : List Char :=
  match o with
  | none => [n, t, '.', c1, c2, 'X']
  | some (e, a) => e ++ a :: '_' :: [n, t, '.', c1, c2, 'X']

/-- Well-formedness of the optional sample-rate group. -/
def OptWF : Option (List Char × Char) → Prop
  | none => True
  | some (e, a) => e.all isUDigit = true ∧ isUAlpha a = true

/-- Reassembled text of a long-name match. -/
def buildLong (p : LongParts) : List Char :=
  p.nine ++ '_' :: 'R' :: '_' :: (p.d11 ++ '_' :: (p.dur ++ p.unit :: '_' ::
    buildLongTail p.opt p.net p.dtype p.arch p.ext2))

/-- The capture groups of the source's short-name regex
`^[a-z\d]{4}\d{3}[a-x\d](\d\d)?\.\d\d[gndmo]$` on the upper-cased filename. -/
structure ShortParts where
  four : List Char
  day3 : List Char
  hourc : Char
  mins : Option (List Char)
  yy : List Char
  typ : Char
deriving DecidableEq, Repr

/-- Matcher for the trailing `(\d\d)?\.\d\d[gndmo]$` of the short-name regex
(on upper-cased text): the optional minutes, the dot, the two-digit year and
the type letter.  The two admissible shapes differ by two characters, so they
are mutually exclusive, exactly as for the anchored regex. -/
def shortTailDecomp (r1 : List Char) : Option (Option (List Char) × List Char × Char) :=
  match r1 with
  | ['.', y1, y2, t] =>
    if isUDigit y1 && isUDigit y2 && styleOk t then some (none, [y1, y2], t) else none
  | [m1, m2, '.', y1, y2, t] =>
    if isUDigit m1 && isUDigit m2 && isUDigit y1 && isUDigit y2 && styleOk t then
      some (some [m1, m2], [y1, y2], t)
    else none
  | _ => none

/-- Matcher for the source's short-name regex, returning the capture groups. -/
def shortDecomp (l : List Char) : Option ShortParts :=
  if (l.take 4).length = 4 ∧ (l.take 4).all isUAlnum = true then
    match l.drop 4 with
    | d1 :: d2 :: d3 :: hc :: r1 =>
      if isUDigit d1 && isUDigit d2 && isUDigit d3 && hourOk hc then
        match shortTailDecomp r1 with
        | some (mins, yy, t) => some ⟨l.take 4, [d1, d2, d3], hc, mins, yy, t⟩
        | none => none
      else none
    | _ => none
  else none

/-- Reassembled text of the short-name tail. -/
def buildShortTail (mins : Option (List Char)) (yy : List Char) (t : Char) : List Char :=
  match mins with
  | none => '.' :: (yy ++ [t])
  | some m => m ++ '.' :: (yy ++ [t])

/-- Reassembled text of a short-name match. -/
def buildShort (q : ShortParts) : List Char :=
  q.four ++ (q.day3 ++ q.hourc :: buildShortTail q.mins q.yy q.typ)

/-- Gregorian leap-year test, as `datetime` uses. -/
def isLeap (y : Nat) : Bool := y % 4 = 0 && (y % 100 ≠ 0 || y % 400 = 0)

/-- The start time extracted from a filename.  `datetime.strptime` with `%j`
yields a calendar date; it is kept here as (year, day-of-year) with the
normalisation `datetime` performs: day 366 of a non-leap year rolls over to
January 1 of the next year, and the resulting year must lie in 1..9999. -/
structure PyDateTime where
  year : Nat
  doy : Nat
  hour : Nat
  minute : Nat
deriving DecidableEq, Repr

/-- Normalise a (year, day-of-year) pair the way CPython's `_strptime` does via
`date.fromordinal(julian - 1 + date(year, 1, 1).toordinal())`: year 0 is
rejected by `date(year, 1, 1)`, day 366 of a non-leap year lands on January 1
of the following year, and a result beyond year 9999 is rejected by
`fromordinal`. -/
def normYDoy (year doy : Nat) : Option (Nat × Nat) :=
  if year = 0 ∨ 9999 < year then none
  else if doy = 366 ∧ isLeap year = false then
    if year + 1 ≤ 9999 then some (year + 1, 1) else none
  else some (year, doy)

/-- `datetime.datetime.strptime(token, '%Y%j%H%M')` on the 11-digit token of a
long filename.  CPython's component regexes make the match succeed exactly when
the day-of-year slice is 001..366, the hour slice is 00..23 and the minute
slice is 00..59 (each component must consume its full slice because the
pattern is anchored by the 11-digit layout and trailing input is rejected);
the year slice is any 4 digits and is then range-checked by `date`. -/
def strptimeLong (l : List Char) : Except PyError PyDateTime :=
  if l.length = 11 ∧ l.all isUDigit = true then
    let y := digitsVal (l.take 4)
    let j := digitsVal ((l.drop 4).take 3)
    let h := digitsVal ((l.drop 7).take 2)
    let m := digitsVal (l.drop 9)
    if 1 ≤ j ∧ j ≤ 366 ∧ h ≤ 23 ∧ m ≤ 59 then
      match normYDoy y j with
      | some (ny, nj) => .ok ⟨ny, nj, h, m⟩
      | none => .error (.valueError "year is out of range")
    else .error (.valueError "time data does not match format")
  else .error (.valueError "time data does not match format")

/-- `datetime.datetime.strptime('{}-{}-{}-{}'.format(year, day, hour, minute),
'%y-%j-%H-%M')` as the short-name branch calls it, with the integers formatted
unpadded.  CPython's `%y` regex is exactly `\d\d`, so a year below 10 (one
digit once formatted) never matches; `%j` accepts 1..366, `%H` 0..23, `%M`
0..59; two-digit years pivot at 68 (`year += 2000 if year <= 68 else 1900`). -/
def strptimeShort (year day hour minute : Nat) : Except PyError PyDateTime :=
  if year < 10 ∨ 99 < year then .error (.valueError "time data does not match format")
  else if day < 1 ∨ 366 < day then .error (.valueError "time data does not match format")
  else if 23 < hour then .error (.valueError "time data does not match format")
  else if 59 < minute then .error (.valueError "time data does not match format")
  else
    let fy := if year ≤ 68 then 2000 + year else 1900 + year
    match normYDoy fy day with
    | some (ny, nj) => .ok ⟨ny, nj, hour, minute⟩
    | none => .error (.valueError "year is out of range")

/-- The tuple returned by `parseRINEXFilename`. -/
structure FilenameRecord where
  marker_name : String
  data_type : String
  file_type : String
  start_time : PyDateTime
deriving DecidableEq, Repr

/-- The dict `{'D': 'daily', 'H': 'hourly', 'M': 'highrate'}` of the long-name
branch (`file_types[...]`, a lookup that would raise `KeyError` on a miss). -/
def file_types (c : Char) : Option String :=
  if c = 'D' then some "daily"
  else if c = 'H' then some "hourly"
  else if c = 'M' then some "highrate"
  else none

/-- The long-name branch of `parseRINEXFilename` (source lines 99-118), applied
to the upper-cased filename: strip the extension, split on `'_'`, then read
marker, data type, file type and start time from the pieces.  (The source's
re-application of `.upper()` to already upper-cased slices is the identity and
is not repeated.) -/
def longBranch (f : List Char) : Except PyError FilenameRecord :=
  let base := splitextBase f
  let split_name := splitOnChar '_' base
  let marker := base.take 4
  match split_name.getLast? with
  | none => .error .indexError
  | some lastTok =>
    match lastTok.getLast? with
    | none => .error .indexError
    | some dt =>
      match split_name.get? 3 with
      | none => .error .indexError
      | some durTok =>
        match durTok.getLast? with
        | none => .error .indexError
        | some u =>
          match file_types u with
          | none => .error (.keyError (String.mk [u]))
          | some ftype =>
            match split_name.get? 2 with
            | none => .error .indexError
            | some tok =>
              match strptimeLong tok with
              | .ok st =>
                .ok ⟨String.mk marker, String.mk [dt], ftype, st⟩
              | .error e => .error e

/-- The short-name branch of `parseRINEXFilename` (source lines 120-160),
applied to the upper-cased filename. -/
def shortBranch (f : List Char) : Except PyError FilenameRecord :=
  let marker := f.take 4
  match f.getLast? with
  | none => .error .indexError
  | some dt0 =>
    let dt1 := if dt0 = 'G' then 'N' else dt0
    let dt := if dt1 = 'D' then 'O' else dt1
    let check_hour := ((f.drop 7).take 2).map Char.toLower
    match check_hour.get? 0 with
    | none => .error .indexError
    | some h0 =>
      let hm : Except PyError (String × Nat × Nat) :=
        if isUDigit h0 then .ok ("daily", 0, 0)
        else
          match check_hour.get? 1 with
          | none => .error .indexError
          | some h1 =>
            if h1 = '.' then .ok ("hourly", h0.toNat - 97, 0)
            else
              match pyInt ((f.drop 8).take 2) with
              | .ok m => .ok ("highrate", h0.toNat - 97, m)
              | .error e => .error e
      match hm with
      | .error e => .error e
      | .ok (ftype, hour, minute) =>
        match pyInt ((f.drop 4).take 3) with
        | .error e => .error e
        | .ok day =>
          match (splitOnChar '.' f).getLast? with
          | none => .error .indexError
          | some extPart =>
            match pyInt (extPart.take 2) with
            | .error e => .error e
            | .ok year =>
              match strptimeShort year day hour minute with
              | .ok st => .ok ⟨String.mk marker, String.mk [dt], ftype, st⟩
              | .error e => .error e

/-- The source's `parseRINEXFilename` (lines 56-168): upper-case the name, try
the long-name regex, then the short-name regex, and raise `InvalidFilename`
when neither matches. -/
def parseRINEXFilename (name : String) : Except PyError FilenameRecord :=
  let f := upperList name
  if (longDecomp f).isSome then longBranch f
  else if (shortDecomp f).isSome then shortBranch f
  else .error (.invalidFilename ("Filename does not match RINEX formatting: " ++ String.mk f))

/-- One step of the `defaultdict(str)` accumulation
`header_fields[label] += field`: append to an existing entry or add a new one
at the end (dict insertion order). -/
def addField (m : List (List Char × List Char)) (label field : List Char) :
    List (List Char × List Char) :=
  match m with
  | [] => [(label, field)]
  | (l, f) :: rest =>
    if l = label then (l, f ++ field) :: rest else (l, f) :: addField rest label field

/-- Dictionary lookup in the accumulated association list. -/
def lookupField (m : List (List Char × List Char)) (label : List Char) : Option (List Char) :=
  match m with
  | [] => none
  | (l, f) :: rest => if l = label then some f else lookupField rest label

/-- The label-grouping loop of `RINEXHeader.__init__` in `rinex_parser.py`
(lines 173-176): for each line, `field, label = line[:60],
trim_whitespace(line[60:])` and `header_fields[label] += field`. -/
def assembleFields (lines : List (List Char)) : List (List Char × List Char) :=
  lines.foldl (fun m line => addField m (trim_whitespace (line.drop 60)) (line.take 60)) []

/-- The `RINEX VERSION / TYPE` grammar:
`joint(n_ANY(9).parsecmap(float), compose(n_ANY(11), one_of('MON')),
compose(n_ANY(19), n_ANY(1)))`. -/
def versionTypeGrammar : PP (ℚ × Char × List Char) :=
  joint3 (pmapFloat (n_ANY 9)) (compose (n_ANY 11) (one_of "MON")) (compose (n_ANY 19) (n_ANY 1))

/-- The state built by `RINEXHeader.__init__` in `rinex_parser.py`: the grouped
fields plus the decoded version and record-type letter (the satellite-system
character is bound and discarded by the source). -/
structure HeaderBase where
  fields : List (List Char × List Char)
  version : ℚ
  rtype : Char
deriving DecidableEq, Repr

/-- `RINEXHeader.__init__` of `rinex_parser.py` (lines 171-184): group the
lines by trimmed label, then decode `self.header_fields['RINEX VERSION / TYPE']`
— a plain-dict indexing that raises `KeyError` when the label is absent. -/
def RINEXHeaderInit (header : List Char) : Except PyError HeaderBase :=
  let fields := assembleFields (splitlinesPy header)
  match lookupField fields "RINEX VERSION / TYPE".data with
  | none => .error (.keyError "RINEX VERSION / TYPE")
  | some txt =>
    match runP versionTypeGrammar txt with
    | .error e => .error e.toPy
    | .ok (v, t, _) => .ok ⟨fields, v, t⟩

/-- `RINEXHeader._getMarkerInfo` (lines 186-191): decode `MARKER NAME` (60
trimmed columns) and `MARKER NUMBER` (20 trimmed columns); each dict indexing
raises `KeyError` when the label is absent. -/
def getMarkerInfo (h : HeaderBase) : Except PyError (List Char × List Char) :=
  match lookupField h.fields "MARKER NAME".data with
  | none => .error (.keyError "MARKER NAME")
  | some t1 =>
    match runP (pmap trim_whitespace (n_ANY 60)) t1 with
    | .error e => .error e.toPy
    | .ok mn =>
      match lookupField h.fields "MARKER NUMBER".data with
      | none => .error (.keyError "MARKER NUMBER")
      | some t2 =>
        match runP (pmap trim_whitespace (n_ANY 20)) t2 with
        | .error e => .error e.toPy
        | .ok mnum => .ok (mn, mnum)

/-- The attributes built by `ObservationalHeader.__init__`. -/
structure ObsHeader where
  base : HeaderBase
  marker_name : List Char
  marker_number : List Char
  receiver_number : List Char
  receiver_type : List Char
  antenna_number : List Char
  antenna_type : List Char
  antenna_height : ℚ
  antenna_east : ℚ
  antenna_north : ℚ
  compressed : Option Bool
deriving DecidableEq, Repr

/-- `ObservationalHeader.__init__` (lines 194-217): base init, marker info,
then `REC # / TYPE / VERS` (three trimmed 20-column strings, the version
discarded), `ANT # / TYPE` (two trimmed 20-column strings), `ANTENNA: DELTA
H/E/N` (three 14-column floats), and the `CRINEX VERS / TYPE` truthiness probe
(`compressed = none` models the attribute staying unset when the field text is
present but empty).  Each dict indexing raises `KeyError` when absent; a
tuple-unpacking arity mismatch would raise `ValueError`. -/
def ObservationalHeaderInit (header : List Char) : Except PyError ObsHeader :=
  match RINEXHeaderInit header with
  | .error e => .error e
  | .ok h =>
    match getMarkerInfo h with
    | .error e => .error e
    | .ok (mn, mnum) =>
      match lookupField h.fields "REC # / TYPE / VERS".data with
      | none => .error (.keyError "REC # / TYPE / VERS")
      | some recTxt =>
        match runP (countP (pmap trim_whitespace (n_ANY 20)) 3) recTxt with
        | .error e => .error e.toPy
        | .ok recs =>
          match recs with
          | [rnum, rtyp, _rver] =>
            match lookupField h.fields "ANT # / TYPE".data with
            | none => .error (.keyError "ANT # / TYPE")
            | some antTxt =>
              match runP (countP (pmap trim_whitespace (n_ANY 20)) 2) antTxt with
              | .error e => .error e.toPy
              | .ok ants =>
                match ants with
                | [anum, atyp] =>
                  match lookupField h.fields "ANTENNA: DELTA H/E/N".data with
                  | none => .error (.keyError "ANTENNA: DELTA H/E/N")
                  | some delTxt =>
                    match runP (countP (pmapFloat (n_ANY 14)) 3) delTxt with
                    | .error e => .error e.toPy
                    | .ok dels =>
                      match dels with
                      | [dh, de, dn] =>
                        let comp : Option Bool :=
                          match lookupField h.fields "CRINEX VERS / TYPE".data with
                          | none => some false
                          | some t => if t ≠ [] then some true else none
                        .ok ⟨h, mn, mnum, rnum, rtyp, anum, atyp, dh, de, dn, comp⟩
                      | _ => .error (.valueError "unpacking mismatch")
                | _ => .error (.valueError "unpacking mismatch")
          | _ => .error (.valueError "unpacking mismatch")

/-- `MeteorologicalHeader.__init__` (lines 219-229): after the base init and
marker info succeed, the source evaluates `header_fields['SENSOR MOD/TYPE/ACC']`
— but `header_fields` is a local of `RINEXHeader.__init__`, not a name in scope
here (the `self.` prefix is missing), so the constructor always raises
`NameError` before any sensor field is decoded. -/
def MeteorologicalHeaderInit (header : List Char) : Except PyError Unit :=
  match RINEXHeaderInit header with
  | .error e => .error e
  | .ok h =>
    match getMarkerInfo h with
    | .error e => .error e
    | .ok _ => .error (.nameError "header_fields")

/-- The dispatch dict `{'N': NavigationalHeader, 'M': MeteorologicalHeader,
'O': ObservationalHeader}` of `RINEX.__init__` (lines 49-54), keyed by the
classified `data_type`. -/
inductive HeaderKind where
  | navigational
  | meteorological
  | observational
deriving DecidableEq, Repr

/-- Lookup in the dispatch dict; `none` models a `KeyError`. -/
def headerDispatch (dt : String) : Option HeaderKind :=
  if dt = "N" then some .navigational
  else if dt = "M" then some .meteorological
  else if dt = "O" then some .observational
  else none

/-- An encoded value decoded by a registered header-field grammar. -/
inductive PVal where
  | vs (v : List Char)
  | vf (v : ℚ)
  | vn (v : Nat)
  | vlist (vs : List PVal)

/-- The `COMMENT` grammar of `RINEX_HEADER_FIELD_PARSERS`:
`Parser(many1(n_ANY(60)))` — one 60-column chunk per original line, in order. -/
def commentGrammar : PP (List (List Char)) := many1 (n_ANY 60)

/-- One group of the `SENSOR MOD/TYPE/ACC` grammar:
`joint(n_ANY(20).parsecmap(trim_whitespace),
skip(n_ANY(20).parsecmap(trim_whitespace), n_ANY(6)),
skip(n_ANY(7).parsecmap(float), n_ANY(4)), skip(n_ANY(2), n_ANY(1)))`. -/
def sensorGroupGrammar : PP PVal :=
  pmap (fun (a, b, c, d) => PVal.vlist [.vs a, .vs b, .vf c, .vs d])
    (joint2 (pmap trim_whitespace (n_ANY 20))
      (fun l =>
        match joint2 (skipP (pmap trim_whitespace (n_ANY 20)) (n_ANY 6))
          (joint2 (skipP (pmapFloat (n_ANY 7)) (n_ANY 4)) (skipP (n_ANY 2) (n_ANY 1))) l with
        | .ok ((b, c, d), r) => .ok ((b, c, d), r)
        | .error e => .error e))

/-- The `SYS / # / OBS TYPES` grammar:
`many1(compose(spaces(), joint(one_of('GREJCIS'), compose(spaces(),
bind(n_I(3), n_A3)))))` where `n_A3(n) = count(compose(spaces(), n_A(3)), n)`. -/
def sysObsGrammar : PP PVal :=
  pmap (fun gs => PVal.vlist gs)
    (many1 (compose spacesP
      (pmap (fun (c, codes) => PVal.vlist [.vs [c], .vlist (codes.map PVal.vs)])
        (joint2 (one_of "GREJCIS")
          (compose spacesP (bindP (n_I 3) (fun n => countP (compose spacesP (n_A 3)) n)))))))

/-- The `RINEX_HEADER_FIELD_PARSERS` dict of `src/rinex_header.py` (lines
67-99), as a lookup from the (untrimmed) label text to its grammar, each
grammar's result encoded as a `PVal`. -/
def headerFieldRegistry (label : List Char) : Option (PP PVal) :=
  if label = "RINEX VERSION / TYPE".data then
    some (pmap (fun (v, t, s) => PVal.vlist [.vf v, .vs [t], .vs s]) versionTypeGrammar)
  else if label = "PGM / RUN BY / DATE".data then
    some (pmap (fun xs => PVal.vlist (xs.map PVal.vs)) (countP (pmap trim_whitespace (n_ANY 20)) 3))
  else if label = "COMMENT".data then
    some (pmap (fun xs => PVal.vlist (xs.map PVal.vs)) commentGrammar)
  else if label = "MARKER NAME".data then
    some (pmap PVal.vs (pmap trim_whitespace (n_ANY 60)))
  else if label = "MARKER NUMBER".data then
    some (pmap PVal.vs (pmap trim_whitespace (n_ANY 20)))
  else if label = "REC # / TYPE / VERS".data then
    some (pmap (fun xs => PVal.vlist (xs.map PVal.vs)) (countP (pmap trim_whitespace (n_ANY 20)) 3))
  else if label = "ANT # / TYPE".data then
    some (pmap (fun xs => PVal.vlist (xs.map PVal.vs)) (countP (pmap trim_whitespace (n_ANY 20)) 2))
  else if label = "ANTENNA: DELTA H/E/N".data then
    some (pmap (fun xs => PVal.vlist (xs.map PVal.vf)) (countP (pmapFloat (n_ANY 14)) 3))
  else if label = "SENSOR MOD/TYPE/ACC".data then
    some (pmap PVal.vlist (many1 sensorGroupGrammar))
  else if label = "SYS / # / OBS TYPES".data then
    some sysObsGrammar
  else none

/-- The label-grouping loop of `RINEXHeader._parseHeader` in
`src/rinex_header.py` (lines 18-21): identical to `assembleFields` except that
the label `line[60:]` is *not* trimmed there. -/
def assembleFieldsV2 (lines : List (List Char)) : List (List Char × List Char) :=
  lines.foldl (fun m line => addField m (line.drop 60) (line.take 60)) []

/-- The decoding loop of `RINEXHeader._parseHeader` (lines 23-31): run the
registered grammar on each grouped field; a label with no registry entry is a
caught `KeyError` and is reported (`print('field not in schema: ...')`) — the
second component collects those diagnostic labels in iteration order.  A
failure of a *registered* grammar propagates. -/
def parseHeaderFields :
    List (List Char × List Char) → Except PyError (List (List Char × PVal) × List (List Char))
  | [] => .ok ([], [])
  | (label, field) :: rest =>
    match headerFieldRegistry label with
    | none =>
      match parseHeaderFields rest with
      | .ok (ps, us) => .ok (ps, label :: us)
      | .error e => .error e
    | some g =>
      match runP g field with
      | .error e => .error e.toPy
      | .ok v =>
        match parseHeaderFields rest with
        | .ok (ps, us) => .ok ((label, v) :: ps, us)
        | .error e => .error e

/-- Terminal line of the structural regex: `.{60}END OF HEADER`. -/
def terminalOk (t : List Char) : Bool :=
  t.length = 73 && t.drop 60 = "END OF HEADER".data

/-- The structural check of `RINEXHeader.__init__` in `src/rinex_header.py`
(line 9): `re.match('^(.{61,80}\n)+.{60}END OF HEADER$', data)`.  Since `.`
never matches `'\n'`, a match decomposes uniquely along the newlines: one or
more newline-terminated lines of 61-80 characters, then the 73-character
terminal line, then (because `$` also matches just before a final newline) at
most one trailing newline. -/
def headerShapeOk (l : List Char) : Bool :=
  let core := if l.getLast? = some '\n' then l.dropLast else l
  let parts := splitOnChar '\n' core
  2 ≤ parts.length &&
    (parts.dropLast.all fun x => 61 ≤ x.length && x.length ≤ 80) &&
    (match parts.getLast? with
     | some t => terminalOk t
     | none => false)

/-- `RINEXHeader.__init__` of `src/rinex_header.py` (lines 8-13): raise
`InvalidHeader` unless the structural regex matches, then `_parseHeader`. -/
def RINEXHeaderInitV2 (l : List Char) :
    Except PyError (List (List Char × PVal) × List (List Char)) :=
  if headerShapeOk l then parseHeaderFields (assembleFieldsV2 (splitlinesPy l))
  else .error (.invalidHeader "header does not match RINEX formatting standards")

/-- The spec's published long-name grammar, written from the spec's words:
`^[A-Z0-9]{9}_R_\d{11}_\d{2}[DHM]_(\d{2}[A-Z]_)?[A-Z][MON]\.[A-Z][RN]X$`,
matched case-insensitively (so on the upper-cased name).  It differs from the
source regex only in the two letter classes written `[A-Z]` here. -/
def specLongNameGrammar (name : String) : Bool :=
  specLongTail (upperList name)
where
  specLongTail (l : List Char) : Bool :=
    (l.take 9).length = 9 && (l.take 9).all isUAlnum &&
    (match l.drop 9 with
     | '_' :: 'R' :: '_' :: r1 =>
       (r1.take 11).length = 11 && (r1.take 11).all isUDigit &&
       (match r1.drop 11 with
        | '_' :: a :: b :: u :: '_' :: r2 =>
          isUDigit a && isUDigit b && unitOk u &&
          (match r2 with
           | [n, t, '.', c1, c2, 'X'] =>
             isUAlpha n && typeOk t && isUAlpha c1 && extOk c2
           | [e1, e2, al, '_', n, t, '.', c1, c2, 'X'] =>
             isUDigit e1 && isUDigit e2 && isUAlpha al &&
             isUAlpha n && typeOk t && isUAlpha c1 && extOk c2
           | _ => false)
        | _ => false)
     | _ => false)

/-- The file type the spec assigns to each duration-unit letter
(D→daily, H→hourly, M→highrate). -/
def unitFileType (c : Char) : String :=
  if c = 'D' then "daily" else if c = 'H' then "hourly" else "highrate"

/-- Specification-side description of the assembler (from the spec's words):
the field for a label is the concatenation, in file order, of the 60-column
field texts of exactly the lines whose trimmed label matches. -/
def gatherSpec (lines : List (List Char)) (label : List Char) : Option (List Char) :=
  let ms := lines.filter fun l => trim_whitespace (l.drop 60) = label
  if ms.isEmpty then none else some (ms.flatMap fun l => l.take 60)

/-- Join body lines, terminating each with a newline. -/
def joinNL : List (List Char) → List Char
  | [] => []
  | l :: ls => l ++ '\n' :: joinNL ls

/-- Rebuild the text a `splitOnChar '\n'` decomposition came from. -/
def unsplitNL : List (List Char) → List Char
  | [] => []
  | [x] => x
  | x :: xs => x ++ '\n' :: unsplitNL xs

/-- Specification-side structural shape (from the spec's words): one or more
lines of 61 to 80 characters, each newline-terminated, followed by a terminal
line of 60 columns of field text and the `END OF HEADER` marker, the whole
optionally newline-terminated. -/
def SpecHeaderShape (s : List Char) : Prop :=
  ∃ (body : List (List Char)) (f : List Char) (trail : List Char),
    body ≠ [] ∧
    (∀ l ∈ body, 61 ≤ l.length ∧ l.length ≤ 80 ∧ '\n' ∉ l) ∧
    f.length = 60 ∧ '\n' ∉ f ∧
    (trail = [] ∨ trail = ['\n']) ∧
    s = joinNL body ++ f ++ "END OF HEADER".data ++ trail

/-- Discriminator: did a run end in the source's `InvalidFilename`? -/
def errIsInvalidFilename {α : Type} : Except PyError α → Bool
  | .error (.invalidFilename _) => true
  | _ => false

/-- Discriminator: did a run end in the source's `RINEXHeaderFieldError`? -/
def errIsFieldError {α : Type} : Except PyError α → Bool
  | .error (.rinexHeaderFieldError _) => true
  | _ => false

/-- Discriminator: did a run end in a builtin `ValueError`? -/
def errIsValueError {α : Type} : Except PyError α → Bool
  | .error (.valueError _) => true
  | _ => false

/-- Pad a string with spaces to `n` characters of field text. -/
def padTo (s : String) (n : Nat) : List Char :=
  s.data ++ List.replicate (n - s.data.length) ' '

/-- A header line: 60 columns of field text followed by the label. -/
def mkLine (field : List Char) (label : String) : List Char := field ++ label.data

/-- Join header lines with newlines (no trailing newline). -/
def mkHeader : List (List Char) → List Char
  | [] => []
  | [l] => l
  | l :: ls => l ++ '\n' :: mkHeader ls

/-- A well-formed `RINEX VERSION / TYPE` field text: columns 0-8 hold
`     2.11`, column 20 holds the record-type letter, the rest is blank. -/
def versionField (t : Char) : List Char :=
  padTo "     2.11" 20 ++ t :: List.replicate 39 ' '

/-- Observational header whose `ANTENNA: DELTA H/E/N` field text is not
numeric: every other required label decodes, so the first failure is the
`float('NOT A NUMBER  ')` call. -/
def c1Header : List Char := mkHeader
  [ mkLine (versionField 'O') "RINEX VERSION / TYPE",
    mkLine (padTo "SITE" 60) "MARKER NAME",
    mkLine (padTo "12345" 60) "MARKER NUMBER",
    mkLine (padTo "900132 RCVR TYPE X" 60) "REC # / TYPE / VERS",
    mkLine (padTo "555 ANTTYPE" 60) "ANT # / TYPE",
    mkLine (padTo "NOT A NUMBER" 60) "ANTENNA: DELTA H/E/N" ]

/-- Observational header with a well-formed version field but no `MARKER NAME`
line. -/
def c2Header : List Char := mkHeader
  [ mkLine (versionField 'O') "RINEX VERSION / TYPE",
    mkLine (padTo "12345" 60) "MARKER NUMBER",
    mkLine (padTo "900132 RCVR TYPE X" 60) "REC # / TYPE / VERS" ]

/-- Meteorological header carrying every label the spec lists as mandatory for
the meteorological record type, all of them well-formed. -/
def c8Header : List Char := mkHeader
  [ mkLine (versionField 'M') "RINEX VERSION / TYPE",
    mkLine (padTo "SITE" 60) "MARKER NAME",
    mkLine (padTo "12345" 60) "MARKER NUMBER",
    mkLine (padTo "PAROSCIENTIFIC      740-16B                   0.2    PR" 60)
      "SENSOR MOD/TYPE/ACC",
    mkLine (padTo "  -1248596.2520  -4819428.2840   3976505.6210  107.0  PR" 60)
      "SENSOR POS XYZ/H" ]

/-- A structurally valid two-line header for the `src/rinex_header.py`
pipeline: one 80-character body line and the terminal line. -/
def v2GoodHeader : List Char :=
  mkLine (versionField 'O') "RINEX VERSION / TYPE" ++
    '\n' :: (List.replicate 60 ' ' ++ "END OF HEADER".data)

/-- The well-formedness facts the long-name regex guarantees about its capture
groups. -/
def LongWF (p : LongParts) : Prop :=
  p.nine.length = 9 ∧ p.nine.all isUAlnum = true ∧
  p.d11.length = 11 ∧ p.d11.all isUDigit = true ∧
  p.dur.length = 2 ∧ p.dur.all isUDigit = true ∧ unitOk p.unit = true ∧
  OptWF p.opt ∧
  netOk p.net = true ∧ typeOk p.dtype = true ∧ archOk p.arch = true ∧ extOk p.ext2 = true

/-- Well-formedness of the optional minutes group. -/
def MinsWF : Option (List Char) → Prop
  | none => True
  | some m => m.length = 2 ∧ m.all isUDigit = true

/-- The well-formedness facts the short-name regex guarantees about its capture
groups. -/
def ShortWF (q : ShortParts) : Prop :=
  q.four.length = 4 ∧ q.four.all isUAlnum = true ∧
  q.day3.length = 3 ∧ q.day3.all isUDigit = true ∧
  hourOk q.hourc = true ∧
  MinsWF q.mins ∧
  q.yy.length = 2 ∧ q.yy.all isUDigit = true ∧ styleOk q.typ = true

/-- The remap the short-name branch applies to the final type letter:
`G` (GLONASS navigation) becomes `N`, then `D` (Hatanaka-compressed
observation) becomes `O`. -/
def remapType (c : Char) : Char :=
  let dt1 := if c = 'G' then 'N' else c
  if dt1 = 'D' then 'O' else dt1

/-- The hour a short-name match yields: 0 for a digit hour character,
otherwise the lower-cased letter's offset from `'a'`. -/
def shortHour (q : ShortParts) : Nat :=
  if isUDigit q.hourc then 0 else (Char.toLower q.hourc).toNat - 97

/-- The minute a short-name match yields: the two parsed digits only in the
letter-hour highrate case. -/
def shortMinute (q : ShortParts) : Nat :=
  if isUDigit q.hourc then 0
  else
    match q.mins with
    | none => 0
    | some m => digitsVal m

/-- The file type a short-name match yields from its hour character and
optional minutes. -/
def shortFileType (q : ShortParts) : String :=
  if isUDigit q.hourc then "daily"
  else
    match q.mins with
    | none => "hourly"
    | some _ => "highrate"

deriving instance DecidableEq for Except

theorem char_ofNat_toNat {n : Nat} (h : n < 55296) : (Char.ofNat n).toNat = n := by
  have hv : n.isValidChar := Or.inl h
  simp [Char.ofNat, hv, Char.ofNatAux, Char.toNat]
  rfl

theorem toLower_of_digit {c : Char} (h : isUDigit c = true) : Char.toLower c = c := by
  have hn : 48 ≤ c.toNat ∧ c.toNat ≤ 57 := by
    simpa [isUDigit] using h
  have : ¬ (c.toNat ≥ 65 ∧ c.toNat ≤ 90) := by omega
  simp [Char.toLower, this]

theorem toLower_toNat_of_upper {c : Char} (h1 : 65 ≤ c.toNat) (h2 : c.toNat ≤ 90) :
    (Char.toLower c).toNat = c.toNat + 32 := by
  simp [Char.toLower, h1, h2]
  exact char_ofNat_toNat (by omega)

theorem hourOk_cases {c : Char} (h : hourOk c = true) :
    isUDigit c = true ∨ (65 ≤ c.toNat ∧ c.toNat ≤ 88) := by
  simpa [hourOk] using h

theorem isUDigit_toLower_of_hourOk {c : Char} (h : hourOk c = true) :
    isUDigit (Char.toLower c) = isUDigit c := by
  rcases hourOk_cases h with hd | hu
  · rw [toLower_of_digit hd]
  · have hl := toLower_toNat_of_upper hu.1 (by omega)
    have h1 : isUDigit (Char.toLower c) = false := by
      simp [isUDigit, hl]; omega
    have h2 : isUDigit c = false := by
      simp [isUDigit]; omega
    rw [h1, h2]

theorem isUDigit_ne_chars {c : Char} (h : isUDigit c = true) :
    c ≠ '_' ∧ c ≠ '.' ∧ c ≠ '\n' := by
  refine ⟨?_, ?_, ?_⟩ <;> (intro he; subst he; exact absurd h (by decide))

theorem isUAlnum_ne_chars {c : Char} (h : isUAlnum c = true) :
    c ≠ '_' ∧ c ≠ '.' ∧ c ≠ '\n' := by
  refine ⟨?_, ?_, ?_⟩ <;> (intro he; subst he; exact absurd h (by decide))

theorem isUAlpha_ne_chars {c : Char} (h : isUAlpha c = true) :
    c ≠ '_' ∧ c ≠ '.' ∧ c ≠ '\n' := by
  refine ⟨?_, ?_, ?_⟩ <;> (intro he; subst he; exact absurd h (by decide))

theorem hourOk_ne_chars {c : Char} (h : hourOk c = true) :
    c ≠ '_' ∧ c ≠ '.' ∧ c ≠ '\n' := by
  rcases hourOk_cases h with hd | hu
  · exact isUDigit_ne_chars hd
  · refine ⟨?_, ?_, ?_⟩ <;> (intro he; subst he; simp at hu)

theorem splitOnChar_ne_nil (sep : Char) (l : List Char) : splitOnChar sep l ≠ [] := by
  induction l with
  | nil => simp [splitOnChar]
  | cons c cs ih =>
    simp only [splitOnChar]
    rcases hs : splitOnChar sep cs with _ | ⟨g, gs⟩
    · simp
    · by_cases hc : c = sep <;> simp [hc]

theorem splitOnChar_not_mem {sep : Char} {l : List Char} (h : sep ∉ l) :
    splitOnChar sep l = [l] := by
  induction l with
  | nil => simp [splitOnChar]
  | cons c cs ih =>
    have hc : c ≠ sep := fun he => h (he ▸ List.mem_cons_self c cs)
    have hcs : sep ∉ cs := fun hm => h (List.mem_cons_of_mem _ hm)
    rw [splitOnChar, ih hcs]
    simp [hc]

theorem splitOnChar_append {sep : Char} {xs ys : List Char} (h : sep ∉ xs) :
    splitOnChar sep (xs ++ sep :: ys) = xs :: splitOnChar sep ys := by
  induction xs with
  | nil =>
    simp only [List.nil_append, splitOnChar]
    rcases hs : splitOnChar sep ys with _ | ⟨g, gs⟩
    · exact absurd hs (splitOnChar_ne_nil sep ys)
    · simp
  | cons c cs ih =>
    have hc : c ≠ sep := fun he => h (he ▸ List.mem_cons_self c cs)
    have hcs : sep ∉ cs := fun hm => h (List.mem_cons_of_mem _ hm)
    rw [List.cons_append, splitOnChar, ih hcs]
    simp [hc]

theorem splitOnChar_no_sep {sep : Char} {l : List Char} :
    ∀ part ∈ splitOnChar sep l, sep ∉ part := by
  induction l with
  | nil => simp [splitOnChar]
  | cons c cs ih =>
    intro part hp
    rw [splitOnChar] at hp
    rcases hs : splitOnChar sep cs with _ | ⟨g, gs⟩
    · exact absurd hs (splitOnChar_ne_nil sep cs)
    · rw [hs] at hp
      by_cases hc : c = sep
      · simp [hc] at hp
        rcases hp with hp | hp | hp
        · simp [hp]
        · exact ih part (hp ▸ (hs ▸ List.mem_cons_self g gs))
        · exact ih part (hs ▸ List.mem_cons_of_mem _ hp)
      · simp [hc] at hp
        rcases hp with hp | hp
        · subst hp
          intro hm
          rcases List.mem_cons.mp hm with hm | hm
          · exact hc hm.symm
          · exact ih g (hs ▸ List.mem_cons_self g gs) hm
        · exact ih part (hs ▸ List.mem_cons_of_mem _ hp)

theorem unsplitNL_cons {l : List (List Char)} (b : List Char) (h : l ≠ []) :
    unsplitNL (b :: l) = b ++ '\n' :: unsplitNL l := by
  cases l with
  | nil => exact absurd rfl h
  | cons y ys => rfl

theorem unsplitNL_split (l : List Char) : unsplitNL (splitOnChar '\n' l) = l := by
  induction l with
  | nil => simp [splitOnChar, unsplitNL]
  | cons c cs ih =>
    rcases hs : splitOnChar '\n' cs with _ | ⟨g, gs⟩
    · exact absurd hs (splitOnChar_ne_nil _ cs)
    · rw [hs] at ih
      by_cases hc : c = '\n'
      · subst hc
        have h2 : unsplitNL ([] :: g :: gs) = '\n' :: cs := by
          rw [unsplitNL_cons [] (List.cons_ne_nil g gs)]
          simpa using ih
        simpa [splitOnChar, hs] using h2
      · simp only [splitOnChar, hs, if_neg hc]
        cases gs with
        | nil => simpa [unsplitNL] using congrArg (c :: ·) ih
        | cons g2 gs2 => simpa [unsplitNL] using congrArg (c :: ·) ih

theorem unsplitNL_concat (body : List (List Char)) (t : List Char) :
    unsplitNL (body ++ [t]) = joinNL body ++ t := by
  induction body with
  | nil => simp [unsplitNL, joinNL]
  | cons b bs ih =>
    rw [List.cons_append, unsplitNL_cons b (by simp), ih, joinNL]
    simp

theorem splitextBase_append {xs ys : List Char} (hx : '.' ∉ xs) (hy : '.' ∉ ys) :
    splitextBase (xs ++ '.' :: ys) = xs := by
  induction xs with
  | nil => simp [splitextBase, hy]
  | cons c cs ih =>
    have hc : c ≠ '.' := fun he => hx (he ▸ List.mem_cons_self c cs)
    have hcs : '.' ∉ cs := fun hm => hx (List.mem_cons_of_mem _ hm)
    rw [List.cons_append, splitextBase]
    have hmem : '.' ∈ cs ++ '.' :: ys := List.mem_append.mpr (Or.inr (List.mem_cons_self _ _))
    simp [hmem, ih hcs]

theorem lookup_addField (m : List (List Char × List Char)) (lab f label : List Char) :
    lookupField (addField m lab f) label =
      if lab = label then some ((lookupField m lab).getD [] ++ f)
      else lookupField m label := by
  induction m with
  | nil =>
    by_cases h : lab = label <;> simp [addField, lookupField, h]
  | cons e rest ih =>
    obtain ⟨l, g⟩ := e
    by_cases hl : l = lab
    · subst hl
      by_cases h : l = label
      · subst h
        simp [addField, lookupField]
      · simp [addField, lookupField, h]
    · by_cases h : l = label
      · subst h
        have hne : ¬ lab = l := fun hh => hl hh.symm
        simp [addField, lookupField, hl, hne]
      · simp [addField, lookupField, hl, h, ih]

theorem assembleFields_concat (ls : List (List Char)) (l : List Char) :
    assembleFields (ls ++ [l]) =
      addField (assembleFields ls) (trim_whitespace (l.drop 60)) (l.take 60) := by
  simp [assembleFields, List.foldl_append]

theorem lookup_assembleFields (lines : List (List Char)) (label : List Char) :
    lookupField (assembleFields lines) label = gatherSpec lines label := by
  induction lines using List.reverseRecOn with
  | nil => simp [assembleFields, lookupField, gatherSpec]
  | append_singleton ls l ih =>
    rw [assembleFields_concat, lookup_addField]
    by_cases h : trim_whitespace (l.drop 60) = label
    · rw [if_pos h, h, ih]
      rcases hfl : List.filter (fun x => decide (trim_whitespace (x.drop 60) = label)) ls
        with _ | ⟨a, as⟩
      · have h1 : gatherSpec ls label = none := by simp [gatherSpec, hfl]
        have h2 : gatherSpec (ls ++ [l]) label = some (l.take 60) := by
          simp [gatherSpec, List.filter_append, hfl, h]
        rw [h1, h2]
        simp
      · have h1 : gatherSpec ls label = some ((a :: as).flatMap fun x => x.take 60) := by
          simp [gatherSpec, hfl]
        have h2 : gatherSpec (ls ++ [l]) label =
            some (((a :: as).flatMap fun x => x.take 60) ++ l.take 60) := by
          simp [gatherSpec, List.filter_append, hfl, h]
        rw [h1, h2]
        simp
    · rw [if_neg h, ih]
      have h2 : gatherSpec (ls ++ [l]) label = gatherSpec ls label := by
        simp [gatherSpec, List.filter_append, h]
      rw [h2]

theorem lookup_assembleFields_none {lines : List (List Char)} {label : List Char}
    (h : ∀ l ∈ lines, trim_whitespace (l.drop 60) ≠ label) :
    lookupField (assembleFields lines) label = none := by
  rw [lookup_assembleFields]
  have hf : List.filter (fun x => decide (trim_whitespace (x.drop 60) = label)) lines = [] := by
    rw [List.filter_eq_nil_iff]
    intro a ha
    simp [h a ha]
  simp [gatherSpec, hf]

theorem n_ANY_exact {l : List Char} {n : Nat} (hlen : l.length = n)
    (hnl : '\n' ∉ l) : n_ANY n l = .ok (l, []) := by
  have ht : l.take n = l := List.take_of_length_le hlen.le
  have hd : l.drop n = [] := List.drop_of_length_le hlen.le
  have hall : l.all (fun c => c != '\n') = true := by
    rw [List.all_eq_true]
    intro c hc
    simp
    exact fun he => hnl (he ▸ hc)
  rw [n_ANY, ht, hd]
  simp [hlen, hall]

theorem n_ANY_prefix {l r : List Char} {n : Nat} (hlen : l.length = n)
    (hnl : '\n' ∉ l) : n_ANY n (l ++ r) = .ok (l, r) := by
  have ht : (l ++ r).take n = l := by
    rw [← hlen]
    exact List.take_left l r
  have hd : (l ++ r).drop n = r := by
    rw [← hlen]
    exact List.drop_left l r
  have hall : l.all (fun c => c != '\n') = true := by
    rw [List.all_eq_true]
    intro c hc
    simp
    exact fun he => hnl (he ▸ hc)
  rw [n_ANY, ht, hd]
  simp [hlen, hall]

theorem n_ANY_short {l : List Char} {n : Nat} (h : l.length < n) :
    n_ANY n l = .error (.parseErr "n_ANY") := by
  rw [n_ANY]
  have hl : (l.take n).length = l.length := by
    rw [List.length_take]
    omega
  rw [if_neg]
  intro hc
  omega

theorem comment_two_lines {c1 c2 : List Char} (h1 : c1.length = 60) (h2 : c2.length = 60)
    (hn1 : '\n' ∉ c1) (hn2 : '\n' ∉ c2) :
    runP commentGrammar (c1 ++ c2) = .ok [c1, c2] := by
  have h5 : manyAux (n_ANY 60) 60 c2 = .ok ([c2], []) := by
    show manyAux (n_ANY 60) (59 + 1) c2 = .ok ([c2], [])
    rw [manyAux, n_ANY_exact h2 hn2]
    rfl
  have h6 : many1 (n_ANY 60) (c1 ++ c2) = .ok ([c1, c2], []) := by
    rw [many1, n_ANY_prefix h1 hn1]
    simp only [h2, h5]
  simp only [runP, commentGrammar, h6]

theorem RINEXHeaderInit_fields {s : List Char} {h : HeaderBase}
    (he : RINEXHeaderInit s = .ok h) :
    h.fields = assembleFields (splitlinesPy s) := by
  rw [RINEXHeaderInit] at he
  rcases hl : lookupField (assembleFields (splitlinesPy s)) "RINEX VERSION / TYPE".data with _ | txt
  · simp only [hl] at he
    exact absurd he (by simp)
  · simp only [hl] at he
    rcases hr : runP versionTypeGrammar txt with e | ⟨v, t, sat⟩
    · simp only [hr] at he
      exact absurd he (by simp)
    · simp only [hr] at he
      simp at he
      rw [← he]

theorem markerName_missing {s : List Char}
    (hok : (RINEXHeaderInit s).isOk = true)
    (hnone : ∀ l ∈ splitlinesPy s, trim_whitespace (l.drop 60) ≠ "MARKER NAME".data) :
    ObservationalHeaderInit s = .error (.keyError "MARKER NAME") ∧
    MeteorologicalHeaderInit s = .error (.keyError "MARKER NAME") := by
  rcases hb : RINEXHeaderInit s with e | h
  · rw [hb] at hok
    simp [Except.isOk, Except.toBool] at hok
  · have hf := RINEXHeaderInit_fields hb
    have hl : lookupField h.fields "MARKER NAME".data = none := by
      rw [hf]
      exact lookup_assembleFields_none hnone
    have hm : getMarkerInfo h = .error (.keyError "MARKER NAME") := by
      rw [getMarkerInfo, hl]
    constructor
    · simp only [ObservationalHeaderInit, hb, hm]
    · simp only [MeteorologicalHeaderInit, hb, hm]

theorem parseHeaderFields_append_unknown (fs : List (List Char × List Char))
    {lab : List Char} (f : List Char) (hu : headerFieldRegistry lab = none) :
    parseHeaderFields (fs ++ [(lab, f)]) =
      (parseHeaderFields fs).map (fun r => (r.1, r.2 ++ [lab])) := by
  induction fs with
  | nil =>
    simp only [List.nil_append, parseHeaderFields, hu]
    simp [Except.map]
  | cons e rest ih =>
    obtain ⟨l2, f2⟩ := e
    rcases hr : headerFieldRegistry l2 with _ | g
    · simp only [List.cons_append, parseHeaderFields, hr, List.append_eq]
      rw [ih]
      rcases hp : parseHeaderFields rest with er | ⟨ps, us⟩ <;> simp [hp, Except.map]
    · simp only [List.cons_append, parseHeaderFields, hr, List.append_eq]
      rcases hv : runP g f2 with er | v
      · simp [hv, Except.map]
      · simp only [hv]
        rw [ih]
        rcases hp : parseHeaderFields rest with er | ⟨ps, us⟩ <;> simp [hp, Except.map]

theorem parseHeaderFields_no_invalidHeader (fs : List (List Char × List Char)) (m : String) :
    parseHeaderFields fs ≠ .error (.invalidHeader m) := by
  induction fs with
  | nil => simp [parseHeaderFields]
  | cons e rest ih =>
    obtain ⟨l2, f2⟩ := e
    rcases hr : headerFieldRegistry l2 with _ | g
    · simp only [parseHeaderFields, hr]
      rcases hp : parseHeaderFields rest with er | ⟨ps, us⟩
      · rw [hp] at ih
        intro hc
        simp at hc
        exact ih (by rw [hc])
      · simp
    · simp only [parseHeaderFields, hr]
      rcases hv : runP g f2 with er | v
      · simp only [hv]
        intro hc
        simp at hc
        cases er <;> simp [FieldErr.toPy] at hc
      · simp only [hv]
        rcases hp : parseHeaderFields rest with er | ⟨ps, us⟩
        · rw [hp] at ih
          simp only [hp]
          intro hc
          simp at hc
          exact ih (by rw [hc])
        · simp [hp]

theorem splitOnChar_joinNL {body : List (List Char)} {t : List Char}
    (hb : ∀ x ∈ body, '\n' ∉ x) (ht : '\n' ∉ t) :
    splitOnChar '\n' (joinNL body ++ t) = body ++ [t] := by
  induction body with
  | nil =>
    simp only [joinNL, List.nil_append]
    exact splitOnChar_not_mem ht
  | cons b bs ih =>
    have hbb : '\n' ∉ b := hb b (List.mem_cons_self b bs)
    have hbs : ∀ x ∈ bs, '\n' ∉ x := fun x hx => hb x (List.mem_cons_of_mem _ hx)
    rw [joinNL, List.append_assoc, List.cons_append]
    rw [splitOnChar_append hbb, ih hbs]
    simp

theorem eoh_no_newline : '\n' ∉ "END OF HEADER".data := by decide

theorem headerShapeOk_iff (l : List Char) : headerShapeOk l = true ↔ SpecHeaderShape l := by
  constructor
  · intro h
    rw [headerShapeOk] at h
    simp only [Bool.and_eq_true] at h
    obtain ⟨⟨hlen, hall⟩, hterm⟩ := h
    set core := if l.getLast? = some '\n' then l.dropLast else l with hcore
    set parts := splitOnChar '\n' core with hparts
    have hplen : 2 ≤ parts.length := by simpa using hlen
    have hpne : parts ≠ [] := splitOnChar_ne_nil '\n' core
    have hdec : parts.dropLast ++ [parts.getLast hpne] = parts :=
      List.dropLast_append_getLast hpne
    set t := parts.getLast hpne with htdef
    set body := parts.dropLast with hbody
    have hterm2 : terminalOk t = true := by
      rcases hg : parts.getLast? with _ | t2
      · rw [hg] at hterm
        simp at hterm
      · rw [hg] at hterm
        have : t = t2 := by
          rw [htdef, List.getLast_eq_iff_getLast?_eq_some hpne]
          exact hg
        rw [this]
        simpa using hterm
    rw [terminalOk, Bool.and_eq_true] at hterm2
    obtain ⟨ht73, hteoh⟩ := hterm2
    have ht73' : t.length = 73 := by simpa using ht73
    have hteoh' : t.drop 60 = "END OF HEADER".data := by simpa using hteoh
    have hcoreeq : core = joinNL body ++ t := by
      have h1 : unsplitNL parts = core := unsplitNL_split core
      rw [← hdec] at h1
      rw [unsplitNL_concat] at h1
      exact h1.symm
    have hnonl : ∀ p ∈ parts, '\n' ∉ p := fun p hp => splitOnChar_no_sep p hp
    refine ⟨body, t.take 60, if l.getLast? = some '\n' then ['\n'] else [], ?_, ?_, ?_, ?_, ?_, ?_⟩
    · have : body.length = parts.length - 1 := by
        rw [hbody, List.length_dropLast]
      intro hc
      rw [hc] at this
      simp at this
      omega
    · intro x hx
      have hxp : x ∈ parts := by
        rw [← hdec]
        exact List.mem_append.mpr (Or.inl hx)
      have hxall := (List.all_eq_true.mp hall) x hx
      simp only [Bool.and_eq_true, decide_eq_true_eq] at hxall
      exact ⟨hxall.1, hxall.2, hnonl x hxp⟩
    · rw [List.length_take]
      omega
    · intro hc
      exact hnonl t (by rw [← hdec]; exact List.mem_append.mpr (Or.inr (by simp)))
        (List.mem_of_mem_take hc)
    · by_cases hg : l.getLast? = some '\n' <;> simp [hg]
    · have htu : t = t.take 60 ++ "END OF HEADER".data := by
        nth_rewrite 1 [← List.take_append_drop 60 t]
        rw [hteoh']
      by_cases hg : l.getLast? = some '\n'
      · rw [if_pos hg]
        have hlne : l ≠ [] := by
          intro hc
          rw [hc] at hg
          simp at hg
        have hlast : l.getLast hlne = '\n' := by
          rw [List.getLast_eq_iff_getLast?_eq_some hlne]
          exact hg
        have hthis : l = l.dropLast ++ ['\n'] := by
          have hh := (List.dropLast_append_getLast hlne).symm
          rwa [hlast] at hh
        have hld : l.dropLast = joinNL body ++ t := by
          have hc2 : core = l.dropLast := by rw [hcore, if_pos hg]
          rw [← hc2, hcoreeq]
        conv_lhs => rw [hthis, hld]
        conv_lhs => rw [htu]
        simp
      · rw [if_neg hg]
        have hld : l = joinNL body ++ t := by
          have hc2 : core = l := by rw [hcore, if_neg hg]
          rw [← hc2, hcoreeq]
        conv_lhs => rw [hld]
        conv_lhs => rw [htu]
        simp
  · rintro ⟨body, f, trail, hne, hlines, hflen, hfnl, htr, heq⟩
    have hbnl : ∀ x ∈ body, '\n' ∉ x := fun x hx => (hlines x hx).2.2
    have htnl : '\n' ∉ f ++ "END OF HEADER".data := by
      intro hc
      rcases List.mem_append.mp hc with hc | hc
      · exact hfnl hc
      · exact eoh_no_newline hc
    have hsplit : splitOnChar '\n' (joinNL body ++ (f ++ "END OF HEADER".data)) =
        body ++ [f ++ "END OF HEADER".data] := splitOnChar_joinNL hbnl htnl
    have hcore : (if l.getLast? = some '\n' then l.dropLast else l) =
        joinNL body ++ (f ++ "END OF HEADER".data) := by
      rcases htr with htr | htr
      · subst htr
        have hl : l = joinNL body ++ (f ++ "END OF HEADER".data) := by
          rw [heq]
          simp
        have hglast : l.getLast? = some 'R' := by
          rw [hl, List.getLast?_append, List.getLast?_append]
          have hE : "END OF HEADER".data.getLast? = some 'R' := by decide
          rw [hE]
          rfl
        rw [if_neg (by rw [hglast]; decide), hl]
      · subst htr
        have hl : l = (joinNL body ++ (f ++ "END OF HEADER".data)) ++ ['\n'] := by
          rw [heq]
          simp
        have hglast : l.getLast? = some '\n' := by
          rw [hl, List.getLast?_concat]
        rw [if_pos hglast, hl, List.dropLast_concat]
    rw [headerShapeOk]
    simp only [hcore, hsplit, Bool.and_eq_true]
    refine ⟨⟨?_, ?_⟩, ?_⟩
    · simp
      cases body with
      | nil => exact absurd rfl hne
      | cons b bs => simp
    · rw [List.dropLast_concat, List.all_eq_true]
      intro x hx
      have := hlines x hx
      simp only [Bool.and_eq_true, decide_eq_true_eq]
      exact ⟨this.1, this.2.1⟩
    · rw [List.getLast?_concat]
      simp only [terminalOk]
      have h1 : (f ++ "END OF HEADER".data).length = 73 := by
        rw [List.length_append, hflen]
        decide
      have h2 : (f ++ "END OF HEADER".data).drop 60 = "END OF HEADER".data := by
        rw [← hflen]
        exact List.drop_left f _
      simp [h1, h2]

theorem headerShapeOk_false_of_not_spec {s : List Char} (hn : ¬ SpecHeaderShape s) :
    headerShapeOk s = false := by
  rcases Bool.eq_false_or_eq_true (headerShapeOk s) with h | h
  · exact absurd ((headerShapeOk_iff s).mp h) hn
  · exact h

/-- C3: `RINEXHeader.__init__` of `src/rinex_header.py` raises `InvalidHeader`
exactly when the structural shape demanded by the spec is violated: when the
text is not one or more newline-terminated lines of 61-80 characters followed
by the 60-column-plus-`END OF HEADER` terminal line (a missing terminator line
is one such violation); once the shape holds, any later failure is a
`ParseError`/`ValueError` from a field grammar, never `InvalidHeader`. -/
theorem c3_invalidHeader_iff_shape (s : List Char) :
    (∃ m, RINEXHeaderInitV2 s = .error (.invalidHeader m)) ↔ ¬ SpecHeaderShape s := by
  constructor
  · rintro ⟨m, hm⟩ hspec
    have hok : headerShapeOk s = true := (headerShapeOk_iff s).mpr hspec
    rw [RINEXHeaderInitV2, if_pos hok] at hm
    exact parseHeaderFields_no_invalidHeader _ m hm
  · intro hn
    have hok : headerShapeOk s = false := headerShapeOk_false_of_not_spec hn
    refine ⟨"header does not match RINEX formatting standards", ?_⟩
    rw [RINEXHeaderInitV2, if_neg (by rw [hok]; exact Bool.false_ne_true)]

/-- Witness for C3 at concrete inputs: the empty text is rejected with
`InvalidHeader`, and the concrete well-shaped two-line header is not. -/
theorem c3_invalidHeader_iff_shape_witness :
    (∃ m, RINEXHeaderInitV2 [] = .error (.invalidHeader m)) ∧
    ¬ (∃ m, RINEXHeaderInitV2 v2GoodHeader = .error (.invalidHeader m)) := by
  constructor
  · refine (c3_invalidHeader_iff_shape []).mpr ?_
    rintro ⟨body, f, trail, hne, hlines, hflen, hfnl, htr, heq⟩
    cases body with
    | nil => exact hne rfl
    | cons b bs =>
      rw [joinNL] at heq
      simp at heq
  · intro hm
    have hns := (c3_invalidHeader_iff_shape v2GoodHeader).mp hm
    apply hns
    refine ⟨[mkLine (versionField 'O') "RINEX VERSION / TYPE"], List.replicate 60 ' ', [],
      by simp, ?_, by simp, by simp, Or.inl rfl, ?_⟩
    · intro x hx
      simp at hx
      subst hx
      refine ⟨by decide, by decide, by decide⟩
    · show v2GoodHeader = _
      rw [v2GoodHeader, joinNL, joinNL]
      simp

theorem longTailDecomp_build {r2 : List Char} {o : Option (List Char × Char)} {n t c1 c2 : Char}
    (h : longTailDecomp r2 = some (o, n, t, c1, c2)) :
    r2 = buildLongTail o n t c1 c2 ∧ OptWF o ∧
    netOk n = true ∧ typeOk t = true ∧ archOk c1 = true ∧ extOk c2 = true := by
  rw [longTailDecomp.eq_def] at h
  split at h
  all_goals try contradiction
  · rename_i n' t' c1' c2'
    split at h
    · rename_i hg
      simp only [Option.some.injEq, Prod.mk.injEq] at h
      obtain ⟨ho, hn, ht, hc1, hc2⟩ := h
      subst hn; subst ht; subst hc1; subst hc2; subst ho
      simp only [Bool.and_eq_true] at hg
      exact ⟨rfl, trivial, hg.1.1.1, hg.1.1.2, hg.1.2, hg.2⟩
    · contradiction
  · rename_i e1 e2 al n' t' c1' c2'
    split at h
    · rename_i hg
      simp only [Option.some.injEq, Prod.mk.injEq] at h
      obtain ⟨ho, hn, ht, hc1, hc2⟩ := h
      subst hn; subst ht; subst hc1; subst hc2; subst ho
      simp only [Bool.and_eq_true] at hg
      refine ⟨by simp [buildLongTail], ⟨?_, hg.1.1.1.1.2⟩, hg.1.1.1.2, hg.1.1.2, hg.1.2, hg.2⟩
      simp [hg.1.1.1.1.1.1, hg.1.1.1.1.1.2]
    · contradiction

theorem longDecomp_build {l : List Char} {p : LongParts} (h : longDecomp l = some p) :
    l = buildLong p ∧ LongWF p := by
  rw [longDecomp] at h
  split at h
  case isFalse => contradiction
  rename_i h9
  split at h
  case h_2 => contradiction
  rename_i r1 heq1
  split at h
  case isFalse => contradiction
  rename_i h11
  split at h
  case h_2 => contradiction
  rename_i a b u r2 heq2
  split at h
  case isFalse => contradiction
  rename_i hu
  split at h
  case h_2 => contradiction
  rename_i o n t c1 c2 htail
  obtain ⟨htr2, hwfo, hnet, htyp, harch, hext⟩ := longTailDecomp_build htail
  have hp : p = ⟨l.take 9, r1.take 11, [a, b], u, o, n, t, c1, c2⟩ := (Option.some.inj h).symm
  subst hp
  simp only [Bool.and_eq_true] at hu
  constructor
  · conv_lhs => rw [← List.take_append_drop 9 l, heq1]
    conv_lhs => rw [← List.take_append_drop 11 r1, heq2, htr2]
    simp [buildLong]
  · exact ⟨h9.1, h9.2, h11.1, h11.2, rfl, by simp [hu.1.1, hu.1.2], hu.2, hwfo,
      hnet, htyp, harch, hext⟩

theorem not_mem_of_all {l : List Char} {p : Char → Bool} {c : Char}
    (h : l.all p = true) (hc : p c = false) : c ∉ l := by
  intro hm
  have := List.all_eq_true.mp h c hm
  rw [hc] at this
  exact Bool.false_ne_true this

theorem unitOk_cases {c : Char} (h : unitOk c = true) : c = 'D' ∨ c = 'H' ∨ c = 'M' := by
  have h2 := by simpa [unitOk] using h
  tauto

theorem netOk_cases {c : Char} (h : netOk c = true) :
    c = 'M' ∨ c = 'E' ∨ c = 'G' ∨ c = 'J' ∨ c = 'R' := by
  have h2 := by simpa [netOk] using h
  tauto

theorem typeOk_cases {c : Char} (h : typeOk c = true) : c = 'M' ∨ c = 'O' ∨ c = 'N' := by
  have h2 := by simpa [typeOk] using h
  tauto

theorem archOk_cases {c : Char} (h : archOk c = true) : c = 'C' ∨ c = 'R' := by
  have h2 := by simpa [archOk] using h
  tauto

theorem extOk_cases {c : Char} (h : extOk c = true) : c = 'R' ∨ c = 'N' := by
  have h2 := by simpa [extOk] using h
  tauto

theorem styleOk_cases {c : Char} (h : styleOk c = true) :
    c = 'G' ∨ c = 'N' ∨ c = 'D' ∨ c = 'M' ∨ c = 'O' := by
  have h2 := by simpa [styleOk] using h
  tauto

theorem file_types_of_unitOk {c : Char} (h : unitOk c = true) :
    file_types c = some (unitFileType c) := by
  rcases unitOk_cases h with h | h | h <;> subst h <;> decide

theorem shortTailDecomp_build {r1 : List Char} {mins : Option (List Char)} {yy : List Char}
    {t : Char} (h : shortTailDecomp r1 = some (mins, yy, t)) :
    r1 = buildShortTail mins yy t ∧ MinsWF mins ∧
    yy.length = 2 ∧ yy.all isUDigit = true ∧ styleOk t = true := by
  rw [shortTailDecomp.eq_def] at h
  split at h
  all_goals try contradiction
  · rename_i y1 y2 t'
    split at h
    · rename_i hg
      simp only [Option.some.injEq, Prod.mk.injEq] at h
      obtain ⟨hm, hy, ht⟩ := h
      subst hm; subst hy; subst ht
      simp only [Bool.and_eq_true] at hg
      exact ⟨rfl, trivial, rfl, by simp [hg.1.1, hg.1.2], hg.2⟩
    · contradiction
  · rename_i m1 m2 y1 y2 t'
    split at h
    · rename_i hg
      simp only [Option.some.injEq, Prod.mk.injEq] at h
      obtain ⟨hm, hy, ht⟩ := h
      subst hm; subst hy; subst ht
      simp only [Bool.and_eq_true] at hg
      refine ⟨rfl, ⟨rfl, ?_⟩, rfl, ?_, hg.2⟩
      · simp [hg.1.1.1.1, hg.1.1.1.2]
      · simp [hg.1.1.2, hg.1.2]
    · contradiction

theorem shortDecomp_build {l : List Char} {q : ShortParts} (h : shortDecomp l = some q) :
    l = buildShort q ∧ ShortWF q := by
  rw [shortDecomp] at h
  split at h
  case isFalse => contradiction
  rename_i h4
  split at h
  case h_2 => contradiction
  rename_i d1 d2 d3 hc r1 heq1
  split at h
  case isFalse => contradiction
  rename_i hd
  split at h
  case h_2 => contradiction
  rename_i mins yy t htail
  obtain ⟨htr1, hwfm, hyylen, hyyall, hsty⟩ := shortTailDecomp_build htail
  have hq : q = ⟨l.take 4, [d1, d2, d3], hc, mins, yy, t⟩ := (Option.some.inj h).symm
  subst hq
  simp only [Bool.and_eq_true] at hd
  constructor
  · conv_lhs => rw [← List.take_append_drop 4 l, heq1, htr1]
    simp [buildShort]
  · exact ⟨h4.1, h4.2, rfl, by simp [hd.1.1.1, hd.1.1.2, hd.1.2], hd.2, hwfm,
      hyylen, hyyall, hsty⟩

theorem getLast?_five (x1 x2 x3 x4 x5 : List Char) :
    (x1 :: x2 :: x3 :: x4 :: [x5] : List (List Char)).getLast? = some x5 := rfl

theorem getLast?_six (x1 x2 x3 x4 x5 x6 : List Char) :
    (x1 :: x2 :: x3 :: x4 :: x5 :: [x6] : List (List Char)).getLast? = some x6 := rfl

theorem nm_append {a : Char} {l1 l2 : List Char} (h1 : a ∉ l1) (h2 : a ∉ l2) :
    a ∉ l1 ++ l2 := fun hm => (List.mem_append.mp hm).elim h1 h2

theorem nm_cons {a b : Char} {l : List Char} (h1 : a ≠ b) (h2 : a ∉ l) : a ∉ b :: l := by
  intro hm
  rcases List.mem_cons.mp hm with hm | hm
  · exact h1 hm
  · exact h2 hm

theorem nm_singleton {a b : Char} (h : a ≠ b) : a ∉ [b] := by
  intro hm
  rw [List.mem_singleton] at hm
  exact h hm

theorem longBranch_eq {f : List Char} {p : LongParts} (hd : longDecomp f = some p) :
    (∀ e, strptimeLong p.d11 = .error e → longBranch f = .error e) ∧
    (∀ st, strptimeLong p.d11 = .ok st →
      longBranch f =
        .ok ⟨String.mk (f.take 4), String.mk [p.dtype], unitFileType p.unit, st⟩) := by
  obtain ⟨hf, hwf⟩ := longDecomp_build hd
  obtain ⟨h9len, h9al, h11len, h11al, hdurlen, hdural, hunit, hopt, hnet, htyp, harch, hext⟩ := hwf
  have hnineDot : '.' ∉ p.nine := not_mem_of_all h9al (by decide)
  have hnineUnd : '_' ∉ p.nine := not_mem_of_all h9al (by decide)
  have hd11Dot : '.' ∉ p.d11 := not_mem_of_all h11al (by decide)
  have hd11Und : '_' ∉ p.d11 := not_mem_of_all h11al (by decide)
  have hdurDot : '.' ∉ p.dur := not_mem_of_all hdural (by decide)
  have hdurUnd : '_' ∉ p.dur := not_mem_of_all hdural (by decide)
  have hunitNe : p.unit ≠ '.' ∧ p.unit ≠ '_' := by
    rcases unitOk_cases hunit with h | h | h <;> rw [h] <;> exact ⟨by decide, by decide⟩
  have hnetNe : p.net ≠ '.' ∧ p.net ≠ '_' := by
    rcases netOk_cases hnet with h | h | h | h | h <;> rw [h] <;> exact ⟨by decide, by decide⟩
  have htypNe : p.dtype ≠ '.' ∧ p.dtype ≠ '_' := by
    rcases typeOk_cases htyp with h | h | h <;> rw [h] <;> exact ⟨by decide, by decide⟩
  have harchNe : p.arch ≠ '.' := by
    rcases archOk_cases harch with h | h <;> rw [h] <;> decide
  have hextNe : p.ext2 ≠ '.' := by
    rcases extOk_cases hext with h | h <;> rw [h] <;> decide
  have hdurUnitUnd : '_' ∉ p.dur ++ [p.unit] :=
    nm_append hdurUnd (nm_singleton (Ne.symm hunitNe.2))
  have hdurUnitDot : '.' ∉ p.dur ++ [p.unit] :=
    nm_append hdurDot (nm_singleton (Ne.symm hunitNe.1))
  have hntUnd : '_' ∉ [p.net, p.dtype] :=
    nm_cons (Ne.symm hnetNe.2) (nm_singleton (Ne.symm htypNe.2))
  have hntDot : '.' ∉ [p.net, p.dtype] :=
    nm_cons (Ne.symm hnetNe.1) (nm_singleton (Ne.symm htypNe.1))
  have hsufDot : '.' ∉ [p.arch, p.ext2, 'X'] :=
    nm_cons (Ne.symm harchNe) (nm_cons (Ne.symm hextNe) (nm_singleton (by decide)))
  rcases ho : p.opt with _ | ⟨e2, a2⟩
  · have hfPS : f = (p.nine ++ '_' :: (['R'] ++ '_' :: (p.d11 ++ '_' ::
        ((p.dur ++ [p.unit]) ++ '_' :: [p.net, p.dtype])))) ++ '.' :: [p.arch, p.ext2, 'X'] := by
      rw [hf]
      simp [buildLong, buildLongTail, ho]
    have hPREdot : '.' ∉ p.nine ++ '_' :: (['R'] ++ '_' :: (p.d11 ++ '_' ::
        ((p.dur ++ [p.unit]) ++ '_' :: [p.net, p.dtype]))) :=
      nm_append hnineDot (nm_cons (by decide) (nm_append (nm_singleton (by decide))
        (nm_cons (by decide) (nm_append hd11Dot (nm_cons (by decide)
          (nm_append hdurUnitDot (nm_cons (by decide) hntDot)))))))
    have hbase : splitextBase f = p.nine ++ '_' :: (['R'] ++ '_' :: (p.d11 ++ '_' ::
        ((p.dur ++ [p.unit]) ++ '_' :: [p.net, p.dtype]))) := by
      rw [hfPS]
      exact splitextBase_append hPREdot hsufDot
    have hsn : splitOnChar '_' (p.nine ++ '_' :: (['R'] ++ '_' :: (p.d11 ++ '_' ::
          ((p.dur ++ [p.unit]) ++ '_' :: [p.net, p.dtype])))) =
        p.nine :: ['R'] :: p.d11 :: (p.dur ++ [p.unit]) :: [[p.net, p.dtype]] := by
      rw [splitOnChar_append hnineUnd, splitOnChar_append (by decide),
        splitOnChar_append hd11Und, splitOnChar_append hdurUnitUnd,
        splitOnChar_not_mem hntUnd]
    have hmarker : (p.nine ++ '_' :: (['R'] ++ '_' :: (p.d11 ++ '_' ::
        ((p.dur ++ [p.unit]) ++ '_' :: [p.net, p.dtype])))).take 4 = f.take 4 := by
      have hlenPRE : 4 ≤ (p.nine ++ '_' :: (['R'] ++ '_' :: (p.d11 ++ '_' ::
          ((p.dur ++ [p.unit]) ++ '_' :: [p.net, p.dtype])))).length := by
        rw [List.length_append]
        omega
      rw [hfPS, List.take_append_of_le_length hlenPRE]
    have hbr : longBranch f =
        match strptimeLong p.d11 with
        | .ok st => .ok ⟨String.mk (f.take 4), String.mk [p.dtype], unitFileType p.unit, st⟩
        | .error e => .error e := by
      rw [longBranch, hbase, hsn, getLast?_five]
      simp only [List.get?_eq_getElem?]
      simp [List.getLast?_concat, file_types_of_unitOk hunit, ← hmarker]
    constructor
    · intro e he
      rw [hbr, he]
    · intro st hst
      rw [hbr, hst]
  · rw [ho] at hopt
    simp only [OptWF] at hopt
    have he2Und : '_' ∉ e2 ++ [a2] :=
      nm_append (not_mem_of_all hopt.1 (by decide))
        (nm_singleton (Ne.symm (isUAlpha_ne_chars hopt.2).1))
    have he2Dot : '.' ∉ e2 ++ [a2] :=
      nm_append (not_mem_of_all hopt.1 (by decide))
        (nm_singleton (Ne.symm (isUAlpha_ne_chars hopt.2).2.1))
    have hfPS : f = (p.nine ++ '_' :: (['R'] ++ '_' :: (p.d11 ++ '_' ::
        ((p.dur ++ [p.unit]) ++ '_' :: ((e2 ++ [a2]) ++ '_' :: [p.net, p.dtype]))))) ++
        '.' :: [p.arch, p.ext2, 'X'] := by
      rw [hf]
      simp [buildLong, buildLongTail, ho]
    have hPREdot : '.' ∉ p.nine ++ '_' :: (['R'] ++ '_' :: (p.d11 ++ '_' ::
        ((p.dur ++ [p.unit]) ++ '_' :: ((e2 ++ [a2]) ++ '_' :: [p.net, p.dtype])))) :=
      nm_append hnineDot (nm_cons (by decide) (nm_append (nm_singleton (by decide))
        (nm_cons (by decide) (nm_append hd11Dot (nm_cons (by decide)
          (nm_append hdurUnitDot (nm_cons (by decide)
            (nm_append he2Dot (nm_cons (by decide) hntDot)))))))))
    have hbase : splitextBase f = p.nine ++ '_' :: (['R'] ++ '_' :: (p.d11 ++ '_' ::
        ((p.dur ++ [p.unit]) ++ '_' :: ((e2 ++ [a2]) ++ '_' :: [p.net, p.dtype])))) := by
      rw [hfPS]
      exact splitextBase_append hPREdot hsufDot
    have hsn : splitOnChar '_' (p.nine ++ '_' :: (['R'] ++ '_' :: (p.d11 ++ '_' ::
          ((p.dur ++ [p.unit]) ++ '_' :: ((e2 ++ [a2]) ++ '_' :: [p.net, p.dtype]))))) =
        p.nine :: ['R'] :: p.d11 :: (p.dur ++ [p.unit]) :: (e2 ++ [a2]) :: [[p.net, p.dtype]] := by
      rw [splitOnChar_append hnineUnd, splitOnChar_append (by decide),
        splitOnChar_append hd11Und, splitOnChar_append hdurUnitUnd,
        splitOnChar_append he2Und, splitOnChar_not_mem hntUnd]
    have hmarker : (p.nine ++ '_' :: (['R'] ++ '_' :: (p.d11 ++ '_' ::
        ((p.dur ++ [p.unit]) ++ '_' :: ((e2 ++ [a2]) ++ '_' :: [p.net, p.dtype]))))).take 4 =
        f.take 4 := by
      have hlenPRE : 4 ≤ (p.nine ++ '_' :: (['R'] ++ '_' :: (p.d11 ++ '_' ::
          ((p.dur ++ [p.unit]) ++ '_' :: ((e2 ++ [a2]) ++ '_' :: [p.net, p.dtype]))))).length := by
        rw [List.length_append]
        omega
      rw [hfPS, List.take_append_of_le_length hlenPRE]
    have hbr : longBranch f =
        match strptimeLong p.d11 with
        | .ok st => .ok ⟨String.mk (f.take 4), String.mk [p.dtype], unitFileType p.unit, st⟩
        | .error e => .error e := by
      rw [longBranch, hbase, hsn, getLast?_six]
      simp only [List.get?_eq_getElem?]
      simp [List.getLast?_concat, file_types_of_unitOk hunit, ← hmarker]
    constructor
    · intro e he
      rw [hbr, he]
    · intro st hst
      rw [hbr, hst]

theorem shortBranch_eq {f : List Char} {q : ShortParts} (hd : shortDecomp f = some q) :
    (∀ e, strptimeShort (digitsVal q.yy) (digitsVal q.day3) (shortHour q) (shortMinute q) =
        .error e → shortBranch f = .error e) ∧
    (∀ st, strptimeShort (digitsVal q.yy) (digitsVal q.day3) (shortHour q) (shortMinute q) =
        .ok st →
      shortBranch f = .ok ⟨String.mk q.four, String.mk [remapType q.typ], shortFileType q, st⟩) := by
  obtain ⟨hf, hwf⟩ := shortDecomp_build hd
  obtain ⟨h4len, h4al, h3len, h3al, hhour, hminsWF, hyylen, hyyal, hsty⟩ := hwf
  have hhourNe : q.hourc ≠ '.' := (hourOk_ne_chars hhour).2.1
  have hstyNe : q.typ ≠ '.' := by
    rcases styleOk_cases hsty with h | h | h | h | h <;> rw [h] <;> decide
  have h4dot : '.' ∉ q.four := not_mem_of_all h4al (by decide)
  have h3dot : '.' ∉ q.day3 := not_mem_of_all h3al (by decide)
  have hyydot : '.' ∉ q.yy := not_mem_of_all hyyal (by decide)
  have hyyne : q.yy ≠ [] := by
    intro hc
    rw [hc] at hyylen
    simp at hyylen
  have h3ne : q.day3 ≠ [] := by
    intro hc
    rw [hc] at h3len
    simp at h3len
  have hytDot : '.' ∉ q.yy ++ [q.typ] := nm_append hyydot (nm_singleton (Ne.symm hstyNe))
  have hyear : pyInt ((q.yy ++ [q.typ]).take 2) = .ok (digitsVal q.yy) := by
    rw [List.take_left' hyylen, pyInt, if_pos ⟨hyyne, hyyal⟩]
  have hday : pyInt q.day3 = .ok (digitsVal q.day3) := by
    rw [pyInt, if_pos ⟨h3ne, h3al⟩]
  have hDigitLower : isUDigit (Char.toLower q.hourc) = isUDigit q.hourc :=
    isUDigit_toLower_of_hourOk hhour
  rcases hm : q.mins with _ | m
  · -- no minutes: tail is '.' :: (yy ++ [typ])
    have hfPS : f = (q.four ++ q.day3 ++ [q.hourc]) ++ '.' :: (q.yy ++ [q.typ]) := by
      rw [hf]
      simp [buildShort, buildShortTail, hm]
    have hlen8 : (q.four ++ q.day3 ++ [q.hourc]).length = 8 := by
      simp [h4len, h3len]
    have hpre2dot : '.' ∉ q.four ++ q.day3 ++ [q.hourc] :=
      nm_append (nm_append h4dot h3dot) (nm_singleton (Ne.symm hhourNe))
    have hflast : f.getLast? = some q.typ := by
      have hsh : f = (q.four ++ q.day3 ++ [q.hourc] ++ '.' :: q.yy) ++ [q.typ] := by
        rw [hfPS]
        simp
      rw [hsh, List.getLast?_concat]
    have hdrop7 : (f.drop 7).take 2 = [q.hourc, '.'] := by
      have h7 : (q.four ++ q.day3).length = 7 := by simp [h4len, h3len]
      have : f = (q.four ++ q.day3) ++ q.hourc :: '.' :: (q.yy ++ [q.typ]) := by
        rw [hfPS]
        simp
      rw [this, List.drop_left' h7]
      rfl
    have hch : ((f.drop 7).take 2).map Char.toLower = [Char.toLower q.hourc, '.'] := by
      rw [hdrop7]
      rfl
    have hsplit : (splitOnChar '.' f).getLast? = some (q.yy ++ [q.typ]) := by
      rw [hfPS, splitOnChar_append hpre2dot, splitOnChar_not_mem hytDot]
      rfl
    have hdrop4 : (f.drop 4).take 3 = q.day3 := by
      rw [hfPS]
      have : (q.four ++ q.day3 ++ [q.hourc]) ++ '.' :: (q.yy ++ [q.typ]) =
          q.four ++ (q.day3 ++ (q.hourc :: '.' :: (q.yy ++ [q.typ]))) := by
        simp
      rw [this, List.drop_left' h4len, List.take_left' h3len]
    have hmtake : f.take 4 = q.four := by
      rw [hfPS]
      have : (q.four ++ q.day3 ++ [q.hourc]) ++ '.' :: (q.yy ++ [q.typ]) =
          q.four ++ (q.day3 ++ (q.hourc :: '.' :: (q.yy ++ [q.typ]))) := by
        simp
      rw [this, List.take_left' h4len]
    have hbr : shortBranch f =
        match strptimeShort (digitsVal q.yy) (digitsVal q.day3) (shortHour q) (shortMinute q) with
        | .ok st =>
          .ok ⟨String.mk q.four, String.mk [remapType q.typ], shortFileType q, st⟩
        | .error e => .error e := by
      rw [shortBranch, hflast, hch, hmtake]
      rcases hdig : isUDigit q.hourc with _ | _ <;>
        simp [List.get?_eq_getElem?, hDigitLower, hdig, hsplit, hyear, hday, hdrop4,
          shortHour, shortMinute, shortFileType, hm, remapType]
    constructor
    · intro e he
      rw [hbr, he]
    · intro st hst
      rw [hbr, hst]
  · -- two-digit minutes: tail is m ++ '.' :: (yy ++ [typ])
    rw [hm] at hminsWF
    simp only [MinsWF] at hminsWF
    obtain ⟨m1, m2, hm2⟩ := List.length_eq_two.mp hminsWF.1
    subst hm2
    have hm1d : isUDigit m1 = true := by
      have := List.all_eq_true.mp hminsWF.2
      exact this m1 (by simp)
    have hm2d : isUDigit m2 = true := by
      have := List.all_eq_true.mp hminsWF.2
      exact this m2 (by simp)
    have hm1ne : m1 ≠ '.' := (isUDigit_ne_chars hm1d).2.1
    have hfPS : f = (q.four ++ q.day3 ++ [q.hourc] ++ [m1, m2]) ++ '.' :: (q.yy ++ [q.typ]) := by
      rw [hf]
      simp [buildShort, buildShortTail, hm]
    have hpre2dot : '.' ∉ q.four ++ q.day3 ++ [q.hourc] ++ [m1, m2] :=
      nm_append (nm_append (nm_append h4dot h3dot) (nm_singleton (Ne.symm hhourNe)))
        (nm_cons (Ne.symm hm1ne) (nm_singleton (Ne.symm (isUDigit_ne_chars hm2d).2.1)))
    have hflast : f.getLast? = some q.typ := by
      have hsh : f = (q.four ++ q.day3 ++ [q.hourc] ++ m1 :: m2 :: '.' :: q.yy) ++ [q.typ] := by
        rw [hfPS]
        simp
      rw [hsh, List.getLast?_concat]
    have hdrop7 : (f.drop 7).take 2 = [q.hourc, m1] := by
      have h7 : (q.four ++ q.day3).length = 7 := by simp [h4len, h3len]
      have : f = (q.four ++ q.day3) ++ q.hourc :: m1 :: m2 :: '.' :: (q.yy ++ [q.typ]) := by
        rw [hfPS]
        simp
      rw [this, List.drop_left' h7]
      rfl
    have hch : ((f.drop 7).take 2).map Char.toLower = [Char.toLower q.hourc, m1] := by
      rw [hdrop7]
      show [Char.toLower q.hourc, Char.toLower m1] = [Char.toLower q.hourc, m1]
      rw [toLower_of_digit hm1d]
    have hdrop8 : (f.drop 8).take 2 = [m1, m2] := by
      have h8 : (q.four ++ q.day3 ++ [q.hourc]).length = 8 := by simp [h4len, h3len]
      have : f = (q.four ++ q.day3 ++ [q.hourc]) ++ m1 :: m2 :: '.' :: (q.yy ++ [q.typ]) := by
        rw [hfPS]
        simp
      rw [this, List.drop_left' h8]
      rfl
    have hminute : pyInt ((f.drop 8).take 2) = .ok (digitsVal [m1, m2]) := by
      rw [hdrop8, pyInt, if_pos ⟨by simp, by simp [hm1d, hm2d]⟩]
    have hsplit : (splitOnChar '.' f).getLast? = some (q.yy ++ [q.typ]) := by
      rw [hfPS, splitOnChar_append hpre2dot, splitOnChar_not_mem hytDot]
      rfl
    have hdrop4 : (f.drop 4).take 3 = q.day3 := by
      have : f = q.four ++ (q.day3 ++ (q.hourc :: m1 :: m2 :: '.' :: (q.yy ++ [q.typ]))) := by
        rw [hfPS]
        simp
      rw [this, List.drop_left' h4len, List.take_left' h3len]
    have hmtake : f.take 4 = q.four := by
      have : f = q.four ++ (q.day3 ++ (q.hourc :: m1 :: m2 :: '.' :: (q.yy ++ [q.typ]))) := by
        rw [hfPS]
        simp
      rw [this, List.take_left' h4len]
    have hbr : shortBranch f =
        match strptimeShort (digitsVal q.yy) (digitsVal q.day3) (shortHour q) (shortMinute q) with
        | .ok st =>
          .ok ⟨String.mk q.four, String.mk [remapType q.typ], shortFileType q, st⟩
        | .error e => .error e := by
      rw [shortBranch, hflast, hch, hmtake]
      rcases hdig : isUDigit q.hourc with _ | _ <;>
        simp [List.get?_eq_getElem?, hDigitLower, hdig, hsplit, hyear, hday, hdrop4, hminute,
          shortHour, shortMinute, shortFileType, hm, remapType, hm1ne]
    constructor
    · intro e he
      rw [hbr, he]
    · intro st hst
      rw [hbr, hst]

theorem strptimeLong_err {s : List Char} {e : PyError} (h : strptimeLong s = .error e) :
    ∃ m, e = .valueError m := by
  rw [strptimeLong] at h
  dsimp only at h
  repeat' split at h
  all_goals first
    | contradiction
    | exact ⟨_, (Except.error.inj h).symm⟩

theorem strptimeShort_err {y d hh m : Nat} {e : PyError}
    (h : strptimeShort y d hh m = .error e) : ∃ ms, e = .valueError ms := by
  rw [strptimeShort] at h
  dsimp only at h
  repeat' split at h
  all_goals first
    | contradiction
    | exact ⟨_, (Except.error.inj h).symm⟩

theorem strptimeShort_fields {y d hh m : Nat} {st : PyDateTime}
    (h : strptimeShort y d hh m = .ok st) : st.hour = hh ∧ st.minute = m := by
  rw [strptimeShort] at h
  dsimp only at h
  repeat' split at h
  all_goals first
    | contradiction
    | (rw [← Except.ok.inj h]; exact ⟨rfl, rfl⟩)

theorem longDecomp_length {l : List Char} {p : LongParts} (h : longDecomp l = some p) :
    34 ≤ l.length := by
  obtain ⟨hf, hwf⟩ := longDecomp_build h
  obtain ⟨h9len, _, h11len, _, hdurlen, _, _, _, _, _, _, _⟩ := hwf
  rw [hf]
  rcases ho : p.opt with _ | ⟨e, a⟩
  · simp [buildLong, buildLongTail, List.length_append, h9len, h11len, hdurlen, ho]
  · simp [buildLong, buildLongTail, List.length_append, h9len, h11len, hdurlen, ho]
    omega

theorem shortDecomp_length {l : List Char} {q : ShortParts} (h : shortDecomp l = some q) :
    l.length ≤ 14 := by
  obtain ⟨hf, hwf⟩ := shortDecomp_build h
  obtain ⟨h4len, _, h3len, _, _, hminsWF, hyylen, _, _⟩ := hwf
  rw [hf]
  rcases hm : q.mins with _ | m
  · simp [buildShort, buildShortTail, List.length_append, h4len, h3len, hyylen, hm]
  · rw [hm] at hminsWF
    simp only [MinsWF] at hminsWF
    simp [buildShort, buildShortTail, List.length_append, h4len, h3len, hyylen, hm,
      hminsWF.1]

theorem parseRINEX_long {name : String} {p : LongParts}
    (h : longDecomp (upperList name) = some p) :
    parseRINEXFilename name = longBranch (upperList name) := by
  rw [parseRINEXFilename, if_pos (by rw [h]; rfl)]

theorem parseRINEX_short {name : String} {q : ShortParts}
    (h : shortDecomp (upperList name) = some q) :
    parseRINEXFilename name = shortBranch (upperList name) := by
  have hlong : longDecomp (upperList name) = none := by
    rcases hl : longDecomp (upperList name) with _ | p
    · rfl
    · have h1 := longDecomp_length hl
      have h2 := shortDecomp_length h
      omega
  rw [parseRINEXFilename, if_neg (by rw [hlong]; simp), if_pos (by rw [h]; rfl)]

set_option maxRecDepth 10000 in
/-- C1 (code_bug): a known required label (`ANTENNA: DELTA H/E/N`) whose field
text is not numeric does *not* raise `RINEXHeaderFieldError` — the `float()`
call inside the grammar raises the builtin `ValueError`, with no label tag,
although the source's own `RINEXHeaderFieldError` docstring says that class is
used when a string is found where a float was expected.  Evaluated at a
concrete observational header whose every other field decodes. -/
theorem c1_antenna_float_valueerror :
    ObservationalHeaderInit c1Header =
      .error (.valueError "could not convert string to float: NOT A NUMBER  ") ∧
    errIsFieldError (ObservationalHeaderInit c1Header) = false := by
  decide

set_option maxRecDepth 10000 in
/-- C2 counterexample: a header whose version field decodes but which carries
no `MARKER NAME` line fails with `KeyError`, not with `RINEXHeaderFieldError`
as the claim states. -/
theorem c2_missing_marker_counterexample :
    ObservationalHeaderInit c2Header = .error (.keyError "MARKER NAME") ∧
    errIsFieldError (ObservationalHeaderInit c2Header) = false := by
  decide

/-- C2 (corrected): for every header text whose `RINEX VERSION / TYPE` field
decodes successfully, if no line carries the (trimmed) label `MARKER NAME`,
then constructing the Observational or the Meteorological header fails with
`KeyError('MARKER NAME')` — the plain-dict lookup in `_getMarkerInfo` — not
with `RINEXHeaderFieldError`. -/
theorem c2_missing_marker_keyerror :
    ∀ s : List Char, (RINEXHeaderInit s).isOk = true →
      (∀ l ∈ splitlinesPy s, trim_whitespace (l.drop 60) ≠ "MARKER NAME".data) →
      ObservationalHeaderInit s = .error (.keyError "MARKER NAME") ∧
      MeteorologicalHeaderInit s = .error (.keyError "MARKER NAME") :=
  fun _ hok hnone => markerName_missing hok hnone

set_option maxRecDepth 10000 in
/-- Witness for C2 at the concrete marker-less header. -/
theorem c2_missing_marker_keyerror_witness :
    ObservationalHeaderInit c2Header = .error (.keyError "MARKER NAME") ∧
    MeteorologicalHeaderInit c2Header = .error (.keyError "MARKER NAME") :=
  c2_missing_marker_keyerror c2Header (by decide) (by decide)

/-- C4 counterexample: `AAAA00AAA_R_20010010000_01D_XO.XRX` matches the spec's
published long-name grammar (network letter `X` in `[A-Z]`, archive letter `X`
in `[A-Z]`), yet `parseRINEXFilename` raises `InvalidFilename` because the
source regex only admits `[megjr]` and `[cr]` there. -/
theorem c4_long_grammar_counterexample :
    specLongNameGrammar "AAAA00AAA_R_20010010000_01D_XO.XRX" = true ∧
    errIsInvalidFilename (parseRINEXFilename "AAAA00AAA_R_20010010000_01D_XO.XRX") = true := by
  decide

/-- C4 (corrected): for every filename matching the *source's* long-name
grammar — which restricts the network letter to `[MEGJR]` and the archive
letter to `[CR]` — classification never raises `InvalidFilename`, and it
returns a `FilenameRecord` whenever the 11-digit date token is accepted by
`strptime` (otherwise a `ValueError` escapes instead). -/
theorem c4_long_grammar_no_invalidFilename :
    ∀ (name : String) (p : LongParts), longDecomp (upperList name) = some p →
      errIsInvalidFilename (parseRINEXFilename name) = false ∧
      ((strptimeLong p.d11).isOk = true → (parseRINEXFilename name).isOk = true) := by
  intro name p hp
  rw [parseRINEX_long hp]
  obtain ⟨he, hok⟩ := longBranch_eq hp
  rcases hst : strptimeLong p.d11 with e | st
  · obtain ⟨m, hm⟩ := strptimeLong_err hst
    rw [he e hst, hm]
    constructor
    · rfl
    · intro hc
      exact absurd hc (by simp [hst, Except.isOk, Except.toBool])
  · rw [hok st hst]
    exact ⟨rfl, fun _ => rfl⟩

/-- Witness for C4 at the concrete long filename `ALIC00AUS_R_20161280000_01D_30S_MO.rnx`. -/
theorem c4_long_grammar_no_invalidFilename_witness :
    errIsInvalidFilename (parseRINEXFilename "ALIC00AUS_R_20161280000_01D_30S_MO.rnx") = false ∧
    ((strptimeLong (⟨"ALIC00AUS".data, "20161280000".data, ['0', '1'], 'D',
        some (['3', '0'], 'S'), 'M', 'O', 'R', 'N'⟩ : LongParts).d11).isOk = true →
      (parseRINEXFilename "ALIC00AUS_R_20161280000_01D_30S_MO.rnx").isOk = true) :=
  c4_long_grammar_no_invalidFilename "ALIC00AUS_R_20161280000_01D_30S_MO.rnx"
    ⟨"ALIC00AUS".data, "20161280000".data, ['0', '1'], 'D',
      some (['3', '0'], 'S'), 'M', 'O', 'R', 'N'⟩ (by decide)

/-- C5 counterexample: `AAAA00AAA_R_00000000000_01D_MO.RNX` matches the long
grammar, but `classify` returns no record at all — `strptime` raises a
`ValueError` on the all-zero date token — so the unconditional universal claim
fails. -/
theorem c5_long_fields_counterexample :
    (longDecomp (upperList "AAAA00AAA_R_00000000000_01D_MO.RNX")).isSome = true ∧
    parseRINEXFilename "AAAA00AAA_R_00000000000_01D_MO.RNX" =
      .error (.valueError "time data does not match format") := by
  decide

/-- C5 (corrected): for every filename matching the source's long-name grammar
*whose 11-digit token `strptime` accepts*, classification returns marker = the
first four (upper-cased) characters, data type = the last letter before the
extension, file type mapped D→daily/H→hourly/M→highrate from the duration
unit, and the parsed start time; in particular the `ALIC00AUS` example of the
spec holds. -/
theorem c5_long_fields :
    (∀ (name : String) (p : LongParts) (st : PyDateTime),
      longDecomp (upperList name) = some p →
      strptimeLong p.d11 = .ok st →
      parseRINEXFilename name =
        .ok ⟨String.mk ((upperList name).take 4), String.mk [p.dtype],
          unitFileType p.unit, st⟩) ∧
    parseRINEXFilename "ALIC00AUS_R_20161280000_01D_30S_MO.rnx" =
      .ok ⟨"ALIC", "O", "daily", ⟨2016, 128, 0, 0⟩⟩ := by
  constructor
  · intro name p st hp hst
    rw [parseRINEX_long hp]
    exact (longBranch_eq hp).2 st hst
  · decide

/-- Witness for C5's universal part at the `ALIC00AUS` filename. -/
theorem c5_long_fields_witness :
    parseRINEXFilename "ALIC00AUS_R_20161280000_01D_30S_MO.rnx" =
      .ok ⟨String.mk ((upperList "ALIC00AUS_R_20161280000_01D_30S_MO.rnx").take 4),
        String.mk ['O'], unitFileType 'D', ⟨2016, 128, 0, 0⟩⟩ :=
  c5_long_fields.1 "ALIC00AUS_R_20161280000_01D_30S_MO.rnx"
    ⟨"ALIC00AUS".data, "20161280000".data, ['0', '1'], 'D',
      some (['3', '0'], 'S'), 'M', 'O', 'R', 'N'⟩
    ⟨2016, 128, 0, 0⟩ (by decide) (by decide)

/-- C6 counterexample: `ALBY124V99.16d` matches the source's short-name
grammar with letter hour `V` and minute digits `99`, yet `classify` raises
`ValueError` from `strptime` instead of returning a highrate record with
minute 99, so the unconditional universal claim fails. -/
theorem c6_short_hour_counterexample :
    (shortDecomp (upperList "ALBY124V99.16d")).isSome = true ∧
    errIsValueError (parseRINEXFilename "ALBY124V99.16d") = true := by
  decide

set_option maxRecDepth 10000 in
/-- C6 (corrected): for every filename matching the source's short-name
grammar *whose derived time `strptime` accepts*, the hour character decides
the file type exactly as claimed — a digit hour gives `daily` with hour 0 and
minute 0, a letter gives hour = its offset from `a`, with `hourly` when no
minute digits follow and `highrate` with the parsed two-digit minute otherwise
(`shortHour`, `shortMinute`, `shortFileType`) — and the three concrete
classifications of the spec hold. -/
theorem c6_short_hour_decides :
    (∀ (name : String) (q : ShortParts) (st : PyDateTime),
      shortDecomp (upperList name) = some q →
      strptimeShort (digitsVal q.yy) (digitsVal q.day3) (shortHour q) (shortMinute q) =
        .ok st →
      parseRINEXFilename name =
        .ok ⟨String.mk q.four, String.mk [remapType q.typ], shortFileType q, st⟩ ∧
      st.hour = shortHour q ∧ st.minute = shortMinute q) ∧
    parseRINEXFilename "alby028g.16n" = .ok ⟨"ALBY", "N", "hourly", ⟨2016, 28, 6, 0⟩⟩ ∧
    parseRINEXFilename "ALBY124V00.16d" = .ok ⟨"ALBY", "O", "highrate", ⟨2016, 124, 21, 0⟩⟩ ∧
    parseRINEXFilename "bula1280.16d" = .ok ⟨"BULA", "O", "daily", ⟨2016, 128, 0, 0⟩⟩ := by
  refine ⟨?_, by decide, by decide, by decide⟩
  intro name q st hq hst
  rw [parseRINEX_short hq]
  exact ⟨(shortBranch_eq hq).2 st hst, strptimeShort_fields hst⟩

set_option maxRecDepth 10000 in
/-- Witness for C6's universal part at the `alby028g` filename. -/
theorem c6_short_hour_decides_witness :
    (parseRINEXFilename "alby028g.16n" =
      .ok ⟨String.mk "ALBY".data, String.mk [remapType 'N'],
        shortFileType ⟨"ALBY".data, ['0', '2', '8'], 'G', none, ['1', '6'], 'N'⟩,
        ⟨2016, 28, 6, 0⟩⟩ ∧
    (⟨2016, 28, 6, 0⟩ : PyDateTime).hour =
      shortHour ⟨"ALBY".data, ['0', '2', '8'], 'G', none, ['1', '6'], 'N'⟩ ∧
    (⟨2016, 28, 6, 0⟩ : PyDateTime).minute =
      shortMinute ⟨"ALBY".data, ['0', '2', '8'], 'G', none, ['1', '6'], 'N'⟩) :=
  c6_short_hour_decides.1 "alby028g.16n"
    ⟨"ALBY".data, ['0', '2', '8'], 'G', none, ['1', '6'], 'N'⟩
    ⟨2016, 28, 6, 0⟩ (by decide) (by decide)

/-- C7 (confirmed): header assembly groups lines by their trimmed label and
concatenates the 60-column field portions of lines sharing a label in file
order — `lookupField` after `assembleFields` agrees with the order-preserving
specification `gatherSpec` — and two 60-column COMMENT lines decode under the
comment grammar to a two-element sequence in file order, never merged into
one string nor reordered. -/
theorem c7_label_grouping :
    (∀ (lines : List (List Char)) (label : List Char),
      lookupField (assembleFields lines) label = gatherSpec lines label) ∧
    (∀ c1 c2 : List Char, c1.length = 60 → c2.length = 60 →
      '\n' ∉ c1 → '\n' ∉ c2 →
      runP commentGrammar (c1 ++ c2) = .ok [c1, c2]) :=
  ⟨lookup_assembleFields, fun _ _ h1 h2 hn1 hn2 => comment_two_lines h1 h2 hn1 hn2⟩

set_option maxRecDepth 10000 in
/-- Witness for C7 at two concrete 60-column COMMENT lines. -/
theorem c7_label_grouping_witness :
    runP commentGrammar (padTo "FIRST COMMENT" 60 ++ padTo "SECOND COMMENT" 60) =
      .ok [padTo "FIRST COMMENT" 60, padTo "SECOND COMMENT" 60] :=
  c7_label_grouping.2 (padTo "FIRST COMMENT" 60) (padTo "SECOND COMMENT" 60)
    (by decide) (by decide) (by decide) (by decide)

set_option maxRecDepth 10000 in
/-- C8 (code_bug): `MeteorologicalHeader.__init__` reads the undefined local
name `header_fields` (a missing `self.`), so constructing a meteorological
header never succeeds for any input — it raises `NameError` — including a
concrete structurally valid header carrying every mandatory meteorological
label, contrary to the claim that such headers parse into sensor type and
height fields. -/
theorem c8_met_header_nameerror :
    (∀ s : List Char, (MeteorologicalHeaderInit s).isOk = false) ∧
    (RINEXHeaderInit c8Header).isOk = true ∧
    MeteorologicalHeaderInit c8Header = .error (.nameError "header_fields") := by
  refine ⟨fun s => ?_, by decide, by decide⟩
  rw [MeteorologicalHeaderInit.eq_def]
  split
  · rfl
  · split
    · rfl
    · rfl

/-- C9 (confirmed): appending a line whose label is not in the grammar
registry never turns a successful parse into a failure — the result is the
same parse with the unknown label appended to the diagnostic list, so an
unregistered label is recorded and reported, not fatal and not silently
dropped. -/
theorem c9_unknown_label_nonfatal :
    ∀ (fs : List (List Char × List Char)) (lab f : List Char),
      headerFieldRegistry lab = none →
      parseHeaderFields (fs ++ [(lab, f)]) =
        (parseHeaderFields fs).map (fun r => (r.1, r.2 ++ [lab])) ∧
      ((parseHeaderFields fs).isOk = true →
        (parseHeaderFields (fs ++ [(lab, f)])).isOk = true) := by
  intro fs lab f hu
  have h1 := parseHeaderFields_append_unknown fs f hu
  refine ⟨h1, fun hok => ?_⟩
  rw [h1]
  rcases hp : parseHeaderFields fs with e | pr
  · rw [hp] at hok
    exact absurd hok (by simp [Except.isOk, Except.toBool])
  · rfl

set_option maxRecDepth 10000 in
/-- Witness for C9: a COMMENT line followed by a vendor-specific label. -/
theorem c9_unknown_label_nonfatal_witness :
    (parseHeaderFields ([("COMMENT".data, padTo "A COMMENT" 60)] ++
        [("VENDOR EXTENSION".data, padTo "X" 60)]) =
      (parseHeaderFields [("COMMENT".data, padTo "A COMMENT" 60)]).map
        (fun r => (r.1, r.2 ++ ["VENDOR EXTENSION".data]))) ∧
    ((parseHeaderFields [("COMMENT".data, padTo "A COMMENT" 60)]).isOk = true →
      (parseHeaderFields ([("COMMENT".data, padTo "A COMMENT" 60)] ++
        [("VENDOR EXTENSION".data, padTo "X" 60)])).isOk = true) :=
  c9_unknown_label_nonfatal [("COMMENT".data, padTo "A COMMENT" 60)]
    "VENDOR EXTENSION".data (padTo "X" 60) (by rfl)

/-- C10 (confirmed): every record returned by filename classification carries
data type `M`, `O`, or `N` (after the short-branch `G`→`N` and `D`→`O`
remaps), so the record-type dispatch dict lookup in the `RINEX` constructor
never misses for a classified filename. -/
theorem c10_dispatch_total :
    ∀ (name : String) (r : FilenameRecord), parseRINEXFilename name = .ok r →
      (r.data_type = "M" ∨ r.data_type = "O" ∨ r.data_type = "N") ∧
      (headerDispatch r.data_type).isSome = true := by
  intro name r h
  have hmain : r.data_type = "M" ∨ r.data_type = "O" ∨ r.data_type = "N" := by
    rcases hl : longDecomp (upperList name) with _ | p
    · rcases hs : shortDecomp (upperList name) with _ | q
      · rw [parseRINEXFilename, if_neg (by rw [hl]; simp),
          if_neg (by rw [hs]; simp)] at h
        exact Except.noConfusion h
      · rw [parseRINEX_short hs] at h
        obtain ⟨hf, hwf⟩ := shortDecomp_build hs
        obtain ⟨h4len, h4al, h3len, h3al, hhour, hminsWF, hyylen, hyyal, hsty⟩ := hwf
        rcases hst : strptimeShort (digitsVal q.yy) (digitsVal q.day3) (shortHour q)
            (shortMinute q) with e | st
        · rw [(shortBranch_eq hs).1 e hst] at h
          exact Except.noConfusion h
        · rw [(shortBranch_eq hs).2 st hst] at h
          have hr : r = ⟨String.mk q.four, String.mk [remapType q.typ],
              shortFileType q, st⟩ := (Except.ok.inj h).symm
          subst hr
          rcases styleOk_cases hsty with h5 | h5 | h5 | h5 | h5 <;> rw [h5] <;>
            first
            | exact Or.inl rfl
            | exact Or.inr (Or.inl rfl)
            | exact Or.inr (Or.inr rfl)
    · rw [parseRINEX_long hl] at h
      obtain ⟨hf, hwf⟩ := longDecomp_build hl
      obtain ⟨h9len, h9al, h11len, h11al, hdurlen, hdural, hunit, hopt, hnet, htyp,
        harch, hext⟩ := hwf
      rcases hst : strptimeLong p.d11 with e | st
      · rw [(longBranch_eq hl).1 e hst] at h
        exact Except.noConfusion h
      · rw [(longBranch_eq hl).2 st hst] at h
        have hr : r = ⟨String.mk ((upperList name).take 4), String.mk [p.dtype],
            unitFileType p.unit, st⟩ := (Except.ok.inj h).symm
        subst hr
        rcases typeOk_cases htyp with h5 | h5 | h5 <;> rw [h5] <;>
          first
          | exact Or.inl rfl
          | exact Or.inr (Or.inl rfl)
          | exact Or.inr (Or.inr rfl)
  refine ⟨hmain, ?_⟩
  rcases hmain with h5 | h5 | h5 <;> rw [h5] <;> decide

set_option maxRecDepth 10000 in
/-- Witness for C10 at the short filename `bula1280.16d`. -/
theorem c10_dispatch_total_witness :
    ((⟨"BULA", "O", "daily", ⟨2016, 128, 0, 0⟩⟩ : FilenameRecord).data_type = "M" ∨
      (⟨"BULA", "O", "daily", ⟨2016, 128, 0, 0⟩⟩ : FilenameRecord).data_type = "O" ∨
      (⟨"BULA", "O", "daily", ⟨2016, 128, 0, 0⟩⟩ : FilenameRecord).data_type = "N") ∧
    (headerDispatch
      (⟨"BULA", "O", "daily", ⟨2016, 128, 0, 0⟩⟩ : FilenameRecord).data_type).isSome = true :=
  c10_dispatch_total "bula1280.16d" ⟨"BULA", "O", "daily", ⟨2016, 128, 0, 0⟩⟩ (by decide)
